import Mathlib

/-!
# reverse-proxy: the route table builder and the dispatcher of `main.go`

`main.go` is a thin composition of three pieces of the Go standard library:
`net/url.Parse`, the default `net/http.ServeMux` and
`net/http/httputil.NewSingleHostReverseProxy`.  What the program does is
decided inside those functions, so they are transcribed here next to the
functions of `main.go` itself (`NewReverseProxy`, `Register`, the loop of
`main`).  The library functions follow the Go 1.21 sources: the last release
whose `ServeMux` is the classic one the program was written against.  Later
releases of `net/http` read a pattern as `[METHOD ][HOST]/PATH` with `{name}`
wildcards: they refuse some keys the classic `ServeMux` registers (a key without
`/`) and match others differently.  The repository fixes no release, so what is
proved about the keys a `ServeMux` accepts and about the pattern a request is
matched to is stated for plain paths (`plainPath`), which every release registers
as written and matches alike; the rest holds whatever patterns `Handle` refuses.

Conventions of the embedding.

* A Go `string` is a sequence of bytes: `GoString := List Byte`, a byte being a
  natural number.  `go "text"` is the UTF-8 encoding of a literal.
* A Go `map` is an association list with unique keys; the order of the list is
  the order in which a `range` loop happens to visit the entries.
* A Go panic is the `Except.error` of the function that raises it.
* The `log` calls of the route loop are not modelled: they write to standard
  error and nothing reads them back.
* `main` is modelled from the route loop on.  What comes before it (the flags,
  the configuration file, the JSON decoder, the assertion that `routes` is an
  object) and the listeners are the input and the environment of the model:
  `routes`, `httpsEnabled`, the addresses, and the requests.
* After the route loop the process has two flows of control, `main` and the
  goroutine of lines 87 to 95; their steps are interleaved by a schedule, a list
  that says which flow moves next.
-/

set_option autoImplicit false

namespace RProxy

deriving instance DecidableEq for Except

/-- One byte of a Go string. -/
abbrev Byte := Nat

/-- A Go `string`: an immutable sequence of bytes. -/
abbrev GoString := List Byte

/-- UTF-8 encoding of one code point. -/
def utf8Encode (n : Nat) : GoString :=
  if n < 0x80 then [n]
  else if n < 0x800 then [0xC0 + n / 64, 0x80 + n % 64]
  else if n < 0x10000 then [0xE0 + n / 4096, 0x80 + n / 64 % 64, 0x80 + n % 64]
  else [0xF0 + n / 262144, 0x80 + n / 4096 % 64, 0x80 + n / 64 % 64, 0x80 + n % 64]

/-- The Go string with the given text: its UTF-8 bytes. -/
def go (s : String) : GoString :=
  (s.toList.map fun c => utf8Encode c.toNat).flatten

/-- The byte of an ASCII character literal. -/
abbrev ch (c : Char) : Byte := c.toNat

/-! ## Package `strings` (the functions `net/url` and `net/http` call) -/

namespace strings

/-- `strings.HasPrefix(s, pre)`. -/
def HasPrefix (s pre : GoString) : Bool := pre.isPrefixOf s

/-- `strings.HasSuffix(s, suf)`. -/
def HasSuffix (s suf : GoString) : Bool := suf.isSuffixOf s

/-- Scan for the first occurrence of `sep`, `i` being the index of the head of the
remaining input. -/
def indexFrom (sep : GoString) : GoString → Nat → Option Nat
  | [], i => if sep.isEmpty then some i else none
  | c :: cs, i => if sep.isPrefixOf (c :: cs) then some i else indexFrom sep cs (i + 1)

/-- `strings.Index(s, sep)`; `none` stands for Go's `-1`. -/
def Index (s sep : GoString) : Option Nat := indexFrom sep s 0

/-- Scan for the last occurrence of `sep`, remembering the latest one seen. -/
def lastIndexFrom (sep : GoString) : GoString → Nat → Option Nat → Option Nat
  | [], i, acc => if sep.isEmpty then some i else acc
  | c :: cs, i, acc =>
    lastIndexFrom sep cs (i + 1) (if sep.isPrefixOf (c :: cs) then some i else acc)

/-- `strings.LastIndex(s, sep)`; `none` stands for Go's `-1`. -/
def LastIndex (s sep : GoString) : Option Nat := lastIndexFrom sep s 0 none

/-- `strings.Contains(s, sep)`. -/
def Contains (s sep : GoString) : Bool := (Index s sep).isSome

/-- `strings.Cut(s, sep)`: the text before and after the first `sep`, and whether
`sep` was found. -/
def Cut (s sep : GoString) : GoString × GoString × Bool :=
  match Index s sep with
  | some i => (s.take i, s.drop (i + sep.length), true)
  | none => (s, [], false)

/-- `strings.Count(s, sep)` for a separator of one byte. -/
def Count (s : GoString) (c : Byte) : Nat := s.count c

/-- `strings.ToLower(s)` on ASCII text (`net/url` applies it to a scheme, which
`getScheme` restricts to ASCII letters, digits, `+`, `-` and `.`). -/
def ToLower (s : GoString) : GoString :=
  s.map fun c => if ch 'A' ≤ c ∧ c ≤ ch 'Z' then c + (ch 'a' - ch 'A') else c

end strings

/-! ## Package `net/url`: `Parse` -/

namespace url

/-- The `encoding` modes of `net/url`. -/
inductive encoding
  | encodePath
  | encodePathSegment
  | encodeHost
  | encodeZone
  | encodeUserPassword
  | encodeQueryComponent
  | encodeFragment
  deriving DecidableEq, Repr

/-- The errors `url.Parse` can return (the `*url.Error` wrapper is left out, only
the cause is kept). -/
inductive Error
  | invalidControlCharacter
  | emptyURL
  | missingProtocolScheme
  | invalidURIForRequest
  | firstPathSegmentColon
  | missingBracket
  | invalidPort (colonPort : GoString)
  | invalidUserinfo
  | EscapeError (s : GoString)
  | InvalidHostError (s : GoString)
  deriving DecidableEq, Repr

/-- Type `url.Userinfo`. -/
structure Userinfo where
  username : GoString
  password : GoString
  passwordSet : Bool
  deriving DecidableEq, Repr

/-- Type `url.URL`. -/
structure URL where
  Scheme : GoString := []
  Opaque : GoString := []
  User : Option Userinfo := none
  Host : GoString := []
  Path : GoString := []
  RawPath : GoString := []
  OmitHost : Bool := false
  ForceQuery : Bool := false
  RawQuery : GoString := []
  Fragment : GoString := []
  RawFragment : GoString := []
  deriving DecidableEq, Repr

/-- Function `ishex`. -/
def ishex (c : Byte) : Bool :=
  (decide (ch '0' ≤ c) && decide (c ≤ ch '9')) ||
  (decide (ch 'a' ≤ c) && decide (c ≤ ch 'f')) ||
  (decide (ch 'A' ≤ c) && decide (c ≤ ch 'F'))

/-- Function `unhex`. -/
def unhex (c : Byte) : Byte :=
  if ch '0' ≤ c ∧ c ≤ ch '9' then c - ch '0'
  else if ch 'a' ≤ c ∧ c ≤ ch 'f' then c - ch 'a' + 10
  else if ch 'A' ≤ c ∧ c ≤ ch 'F' then c - ch 'A' + 10
  else 0

/-- Function `shouldEscape`: whether byte `c` must be escaped in `mode`. -/
def shouldEscape (c : Byte) (mode : encoding) : Bool :=
  -- §2.3 Unreserved characters (alphanum)
  if (ch 'a' ≤ c ∧ c ≤ ch 'z') ∨ (ch 'A' ≤ c ∧ c ≤ ch 'Z') ∨ (ch '0' ≤ c ∧ c ≤ ch '9') then false
  else if (mode = .encodeHost ∨ mode = .encodeZone) ∧
      c ∈ [ch '!', ch '$', ch '&', 39, ch '(', ch ')', ch '*', ch '+', ch ',', ch ';',
           ch '=', ch ':', ch '[', ch ']', ch '<', ch '>', 34] then false
  else if c ∈ [ch '-', ch '_', ch '.', ch '~'] then false
  else if c ∈ [ch '$', ch '&', ch '+', ch ',', ch '/', ch ':', ch ';', ch '=', ch '?', ch '@'] then
    match mode with
    | .encodePath => c == ch '?'
    | .encodePathSegment => c == ch '/' || c == ch ';' || c == ch ',' || c == ch '?'
    | .encodeUserPassword => c == ch '@' || c == ch '/' || c == ch '?' || c == ch ':'
    | .encodeQueryComponent => true
    | .encodeFragment => false
    | _ => true
  else if mode = .encodeFragment ∧ c ∈ [ch '!', ch '(', ch ')', ch '*'] then false
  else true

/-- First loop of `unescape`: count the `%`, check that they are well formed;
returns `n` and `hasPlus`. -/
def unescapeScan (mode : encoding) : GoString → Nat → Bool → Except Error (Nat × Bool)
  | [], n, hasPlus => .ok (n, hasPlus)
  | c :: rest, n, hasPlus =>
    if c = ch '%' then
      match rest with
      | a :: b :: rest2 =>
        if !ishex a || !ishex b then .error (.EscapeError [c, a, b])
        else if mode = .encodeHost ∧ unhex a < 8 ∧ [c, a, b] ≠ go "%25" then
          .error (.EscapeError [c, a, b])
        else if mode = .encodeZone ∧ [c, a, b] ≠ go "%25" ∧
            (unhex a <<< 4 ||| unhex b) ≠ ch ' ' ∧
            shouldEscape (unhex a <<< 4 ||| unhex b) .encodeHost = true then
          .error (.EscapeError [c, a, b])
        else unescapeScan mode rest2 (n + 1) hasPlus
      | _ => .error (.EscapeError (c :: rest))
    else if c = ch '+' then unescapeScan mode rest n (mode == .encodeQueryComponent)
    else if (mode = .encodeHost ∨ mode = .encodeZone) ∧ c < 0x80 ∧ shouldEscape c mode = true then
      .error (.InvalidHostError [c])
    else unescapeScan mode rest n hasPlus

/-- Second loop of `unescape`: write the decoded bytes.  A `%` is followed by two
bytes here, the first loop has checked it. -/
def unescapeWrite (mode : encoding) : GoString → GoString
  | [] => []
  | c :: rest =>
    if c = ch '%' then
      match rest with
      | a :: b :: rest2 => (unhex a <<< 4 ||| unhex b) :: unescapeWrite mode rest2
      | _ => []
    else if c = ch '+' then
      (if mode = .encodeQueryComponent then ch ' ' else ch '+') :: unescapeWrite mode rest
    else c :: unescapeWrite mode rest

/-- Function `unescape`. -/
def unescape (s : GoString) (mode : encoding) : Except Error GoString :=
  match unescapeScan mode s 0 false with
  | .error e => .error e
  | .ok (n, hasPlus) => if n = 0 ∧ hasPlus = false then .ok s else .ok (unescapeWrite mode s)

/-- The digits of `upperhex`. -/
def upperhex (n : Nat) : Byte := (go "0123456789ABCDEF").getD n 0

/-- Function `escape`. -/
def escape (s : GoString) (mode : encoding) : GoString :=
  if s.all (fun c => !shouldEscape c mode) then s
  else (s.map fun c =>
    if shouldEscape c mode then
      if c = ch ' ' ∧ mode = .encodeQueryComponent then [ch '+']
      else [ch '%', upperhex (c >>> 4), upperhex (c &&& 15)]
    else [c]).flatten

/-- Function `validEncoded`. -/
def validEncoded (s : GoString) (mode : encoding) : Bool :=
  s.all fun c =>
    if c ∈ [ch '!', ch '$', ch '&', 39, ch '(', ch ')', ch '*', ch '+', ch ',', ch ';',
            ch '=', ch ':', ch '@'] then true
    else if c ∈ [ch '[', ch ']'] then true
    else if c = ch '%' then true
    else !shouldEscape c mode

/-- Method `(*URL).setPath`. -/
def setPath (u : URL) (p : GoString) : Except Error URL :=
  match unescape p .encodePath with
  | .error e => .error e
  | .ok path =>
    if p = escape path .encodePath then .ok { u with Path := path, RawPath := [] }
    else .ok { u with Path := path, RawPath := p }

/-- Method `(*URL).setFragment`. -/
def setFragment (u : URL) (f : GoString) : Except Error URL :=
  match unescape f .encodeFragment with
  | .error e => .error e
  | .ok frag =>
    if f = escape frag .encodeFragment then .ok { u with Fragment := frag, RawFragment := [] }
    else .ok { u with Fragment := frag, RawFragment := f }

/-- Method `(*URL).EscapedPath`. -/
def EscapedPath (u : URL) : GoString :=
  if u.RawPath ≠ [] ∧ validEncoded u.RawPath .encodePath = true ∧
      unescape u.RawPath .encodePath = .ok u.Path then u.RawPath
  else if u.Path = go "*" then go "*"
  else escape u.Path .encodePath

/-- Function `stringContainsCTLByte`. -/
def stringContainsCTLByte (s : GoString) : Bool :=
  s.any fun b => decide (b < ch ' ') || b == 0x7f

/-- Loop of `getScheme`; `i` is the index of the head of the remaining input. -/
def getSchemeLoop (rawURL : GoString) : GoString → Nat → Except Error (GoString × GoString)
  | [], _ => .ok ([], rawURL)
  | c :: cs, i =>
    if (ch 'a' ≤ c ∧ c ≤ ch 'z') ∨ (ch 'A' ≤ c ∧ c ≤ ch 'Z') then getSchemeLoop rawURL cs (i + 1)
    else if (ch '0' ≤ c ∧ c ≤ ch '9') ∨ c = ch '+' ∨ c = ch '-' ∨ c = ch '.' then
      if i = 0 then .ok ([], rawURL) else getSchemeLoop rawURL cs (i + 1)
    else if c = ch ':' then
      if i = 0 then .error .missingProtocolScheme
      else .ok (rawURL.take i, rawURL.drop (i + 1))
    else
      -- an invalid character: there is no valid scheme
      .ok ([], rawURL)

/-- Function `getScheme`: split off a possible leading `scheme:`. -/
def getScheme (rawURL : GoString) : Except Error (GoString × GoString) :=
  getSchemeLoop rawURL rawURL 0

/-- Function `validOptionalPort`: `port` is empty or `:` followed by digits. -/
def validOptionalPort : GoString → Bool
  | [] => true
  | c :: rest =>
    if c ≠ ch ':' then false
    else rest.all fun b => !(decide (b < ch '0') || decide (b > ch '9'))

/-- Function `validUserinfo`.  Go ranges over the runes of `s`; every rune outside
ASCII is rejected, so the test is the same byte by byte. -/
def validUserinfo (s : GoString) : Bool :=
  s.all fun r =>
    if ch 'A' ≤ r ∧ r ≤ ch 'Z' then true
    else if ch 'a' ≤ r ∧ r ≤ ch 'z' then true
    else if ch '0' ≤ r ∧ r ≤ ch '9' then true
    else decide (r ∈ [ch '-', ch '.', ch '_', ch ':', ch '~', ch '!', ch '$', ch '&', 39,
      ch '(', ch ')', ch '*', ch '+', ch ',', ch ';', ch '=', ch '%', ch '@'])

/-- Function `parseHost`. -/
def parseHost (host : GoString) : Except Error GoString :=
  if strings.HasPrefix host (go "[") then
    -- an IP-literal: "[fe80::1]", "[fe80::1%25en0]", "[fe80::1]:80"
    match strings.LastIndex host (go "]") with
    | none => .error .missingBracket
    | some i =>
      let colonPort := host.drop (i + 1)
      if !validOptionalPort colonPort then .error (.invalidPort colonPort)
      else
        match strings.Index (host.take i) (go "%25") with
        | some zone =>
          match unescape (host.take zone) .encodeHost with
          | .error e => .error e
          | .ok host1 =>
            match unescape ((host.take i).drop zone) .encodeZone with
            | .error e => .error e
            | .ok host2 =>
              match unescape (host.drop i) .encodeHost with
              | .error e => .error e
              | .ok host3 => .ok (host1 ++ host2 ++ host3)
        | none => unescape host .encodeHost
  else
    match strings.LastIndex host (go ":") with
    | some i =>
      let colonPort := host.drop i
      if !validOptionalPort colonPort then .error (.invalidPort colonPort)
      else unescape host .encodeHost
    | none => unescape host .encodeHost

/-- Function `parseAuthority`: `[userinfo@]host`. -/
def parseAuthority (authority : GoString) : Except Error (Option Userinfo × GoString) :=
  match strings.LastIndex authority (go "@") with
  | none =>
    match parseHost authority with
    | .error e => .error e
    | .ok host => .ok (none, host)
  | some i =>
    match parseHost (authority.drop (i + 1)) with
    | .error e => .error e
    | .ok host =>
      let userinfo := authority.take i
      if !validUserinfo userinfo then .error .invalidUserinfo
      else if !strings.Contains userinfo (go ":") then
        match unescape userinfo .encodeUserPassword with
        | .error e => .error e
        | .ok username => .ok (some ⟨username, [], false⟩, host)
      else
        match unescape (strings.Cut userinfo (go ":")).1 .encodeUserPassword with
        | .error e => .error e
        | .ok username =>
          match unescape (strings.Cut userinfo (go ":")).2.1 .encodeUserPassword with
          | .error e => .error e
          | .ok password => .ok (some ⟨username, password, true⟩, host)

/-- Function `parse`: parse a URL without its fragment.  `viaRequest` says that the
URL comes from the request line of an HTTP request. -/
def parse (rawURL : GoString) (viaRequest : Bool) : Except Error URL :=
  if stringContainsCTLByte rawURL then .error .invalidControlCharacter
  else if rawURL = [] ∧ viaRequest = true then .error .emptyURL
  else if rawURL = go "*" then .ok { Path := go "*" }
  else
    match getScheme rawURL with
    | .error e => .error e
    | .ok (scheme, rest0) =>
      let scheme := strings.ToLower scheme
      let forceQuery : Bool :=
        strings.HasSuffix rest0 (go "?") && strings.Count rest0 (ch '?') == 1
      let rest : GoString :=
        if forceQuery then rest0.take (rest0.length - 1) else (strings.Cut rest0 (go "?")).1
      let rawQuery : GoString :=
        if forceQuery then [] else (strings.Cut rest0 (go "?")).2.1
      let u : URL := { Scheme := scheme, ForceQuery := forceQuery, RawQuery := rawQuery }
      if !strings.HasPrefix rest (go "/") ∧ scheme ≠ [] then
        -- rootless paths are opaque
        .ok { u with Opaque := rest }
      else if !strings.HasPrefix rest (go "/") ∧ viaRequest = true then
        .error .invalidURIForRequest
      else if !strings.HasPrefix rest (go "/") ∧
          strings.Contains (strings.Cut rest (go "/")).1 (go ":") = true then
        .error .firstPathSegmentColon
      else if (scheme ≠ [] ∨ (viaRequest = false ∧ !strings.HasPrefix rest (go "///"))) ∧
          strings.HasPrefix rest (go "//") = true then
        let authority0 := rest.drop 2
        let authority :=
          match strings.Index authority0 (go "/") with
          | some i => authority0.take i
          | none => authority0
        let rest2 :=
          match strings.Index authority0 (go "/") with
          | some i => authority0.drop i
          | none => []
        match parseAuthority authority with
        | .error e => .error e
        | .ok (user, host) => setPath { u with User := user, Host := host } rest2
      else if scheme ≠ [] ∧ strings.HasPrefix rest (go "/") = true then
        setPath { u with OmitHost := true } rest
      else setPath u rest

/-- Function `url.Parse`: cut off the fragment, parse the rest, then set the
fragment. -/
def Parse (rawURL : GoString) : Except Error URL :=
  match parse (strings.Cut rawURL (go "#")).1 false with
  | .error e => .error e
  | .ok u =>
    if (strings.Cut rawURL (go "#")).2.1 = [] then .ok u
    else setFragment u (strings.Cut rawURL (go "#")).2.1

end url

/-! ## Package `path`: `Clean` -/

namespace path

/-- The inner loop of the `..` case of `Clean`: move `w` back to the previous `/`,
not below `dotdot`. -/
def backtrack (out : GoString) (dotdot : Nat) : Nat → Nat
  | 0 => 0
  | w + 1 => if w + 1 > dotdot ∧ out.getD (w + 1) 0 ≠ ch '/' then backtrack out dotdot w else w + 1

/-- The main loop of `Clean`.  `rest` is `path[r:]`, `out` the bytes written so far
(`out.w` is its length).  Every iteration consumes a byte of `rest`, so a fuel of
`len(path)` is never used up. -/
def cleanLoop (rooted : Bool) : Nat → GoString → GoString → Nat → GoString
  | 0, _, out, _ => out
  | fuel + 1, rest, out, dotdot =>
    match rest with
    | [] => out
    | c :: rest1 =>
      if c = ch '/' then
        -- empty path element
        cleanLoop rooted fuel rest1 out dotdot
      else if c = ch '.' ∧ (rest1 = [] ∨ rest1.head? = some (ch '/')) then
        -- . element
        cleanLoop rooted fuel rest1 out dotdot
      else if c = ch '.' ∧ rest1.head? = some (ch '.') ∧
          (rest1.drop 1 = [] ∨ (rest1.drop 1).head? = some (ch '/')) then
        -- .. element: remove to last /
        if out.length > dotdot then
          cleanLoop rooted fuel (rest1.drop 1)
            (out.take (backtrack out dotdot (out.length - 1))) dotdot
        else if rooted = false then
          -- cannot backtrack, but not rooted, so append .. element
          cleanLoop rooted fuel (rest1.drop 1)
            ((if out.length > 0 then out ++ [ch '/'] else out) ++ [ch '.', ch '.'])
            ((if out.length > 0 then out ++ [ch '/'] else out) ++ [ch '.', ch '.']).length
        else cleanLoop rooted fuel (rest1.drop 1) out dotdot
      else
        -- real path element: add slash if needed, copy element
        cleanLoop rooted fuel (rest.dropWhile fun b => b != ch '/')
          ((if (rooted = true ∧ out.length ≠ 1) ∨ (rooted = false ∧ out.length ≠ 0)
              then out ++ [ch '/'] else out) ++ rest.takeWhile fun b => b != ch '/')
          dotdot

/-- `path.Clean(path)`: the shortest path name equivalent to `path`. -/
def Clean (path : GoString) : GoString :=
  if path = [] then go "."
  else
    let rooted : Bool := path.head? = some (ch '/')
    let out :=
      if rooted then cleanLoop rooted path.length (path.drop 1) [ch '/'] 1
      else cleanLoop rooted path.length path [] 0
    if out = [] then go "." else out

end path

/-! ## Package `net`: `SplitHostPort` -/

namespace net

/-- `net.SplitHostPort(hostport)`; `none` stands for the `*AddrError`. -/
def SplitHostPort (hostport : GoString) : Option (GoString × GoString) :=
  -- the port starts after the last colon
  match strings.LastIndex hostport (go ":") with
  | none => none
  | some i =>
    if hostport.head? = some (ch '[') then
      -- expect the first ']' just before the last ':'
      match strings.Index hostport (go "]") with
      | none => none
      | some e =>
        if e + 1 = hostport.length then none
        else if e + 1 = i then
          if strings.Contains (hostport.drop 1) (go "[") then none
          else if strings.Contains (hostport.drop (e + 1)) (go "]") then none
          else some ((hostport.take e).drop 1, hostport.drop (i + 1))
        else none
    else
      if strings.Contains (hostport.take i) (go ":") then none
      else if strings.Contains hostport (go "[") then none
      else if strings.Contains hostport (go "]") then none
      else some (hostport.take i, hostport.drop (i + 1))

end net

/-! ## Package `sort`: `Search` -/

namespace sort

/-- The loop of `sort.Search`: binary search on `[i, j)`. -/
def searchLoop (f : Nat → Bool) : Nat → Nat → Nat → Nat
  | 0, i, _ => i
  | fuel + 1, i, j =>
    if i < j then
      if !f ((i + j) / 2) then searchLoop f fuel ((i + j) / 2 + 1) j
      else searchLoop f fuel i ((i + j) / 2)
    else i

/-- `sort.Search(n, f)`: the smallest index in `[0, n]` at which `f` is true, `f`
being false then true.  The interval shrinks at every step, `n` steps are enough. -/
def Search (n : Nat) (f : Nat → Bool) : Nat := searchLoop f n 0 n

end sort

/-! ## Package `net/http`: requests and the `ServeMux` -/

namespace http

/-- Status code `http.StatusMovedPermanently`. -/
def StatusMovedPermanently : Nat := 301

/-- Type `http.Request`: the fields the program and its handlers read. -/
structure Request where
  Method : GoString
  URL : url.URL
  Header : List (GoString × List GoString) := []
  Body : GoString := []
  Host : GoString := []
  RemoteAddr : GoString := []
  RequestURI : GoString := []
  deriving DecidableEq, Repr

/-- Type `muxEntry`; `H` is the type of the registered handlers. -/
structure muxEntry (H : Type) where
  h : H
  pattern : GoString
  deriving DecidableEq, Repr

/-- Type `http.ServeMux`. -/
structure ServeMux (H : Type) where
  /-- The map from pattern to entry. -/
  m : List (GoString × muxEntry H) := []
  /-- The entries whose pattern ends in `/`, sorted from longest to shortest. -/
  es : List (muxEntry H) := []
  /-- Whether any pattern contains a host name. -/
  hosts : Bool := false
  deriving DecidableEq, Repr

/-- The panics of `(*ServeMux).Handle`. -/
inductive HandlePanic
  | invalidPattern
  | multipleRegistrations (pattern : GoString)
  deriving DecidableEq, Repr

/-- What `(*ServeMux).Handler` returns: a registered handler, `NotFoundHandler()` or
`RedirectHandler(u.String(), code)` (the URL is kept in place of its text). -/
inductive Handler (H : Type)
  | registered (h : H)
  | NotFoundHandler
  | RedirectHandler (u : url.URL) (code : Nat)
  deriving DecidableEq, Repr

/-- Map assignment `m[k] = v`. -/
def mapSet {V : Type} (m : List (GoString × V)) (k : GoString) (v : V) : List (GoString × V) :=
  if (m.lookup k).isSome then m.map fun kv => if kv.1 = k then (k, v) else kv
  else m ++ [(k, v)]

/-- Function `appendSorted`: insert `e` before the first entry with a shorter
pattern. -/
def appendSorted {H : Type} (es : List (muxEntry H)) (e : muxEntry H) : List (muxEntry H) :=
  let i := sort.Search es.length fun i =>
    match es.get? i with
    | some x => decide (x.pattern.length < e.pattern.length)
    | none => true
  if i = es.length then es ++ [e]
  else es.take i ++ e :: es.drop i

/-- `(*ServeMux).Handle(pattern, handler)` of the classic `ServeMux`: register the
handler for the pattern, panic if the pattern is empty or already registered.  (A
nil handler panics too; the program never passes one.)  Every release panics on the
empty pattern and on a pattern registered twice, and registers a plain path as it
is written; later releases also panic on patterns they cannot parse or that
conflict. -/
def ServeMux.Handle {H : Type} (mux : ServeMux H) (pattern : GoString) (handler : H) :
    Except HandlePanic (ServeMux H) :=
  if pattern = [] then .error .invalidPattern
  else if (mux.m.lookup pattern).isSome then .error (.multipleRegistrations pattern)
  else
    .ok { m := mapSet mux.m pattern ⟨handler, pattern⟩
          es := if pattern.getLast? = some (ch '/') then appendSorted mux.es ⟨handler, pattern⟩
                else mux.es
          hosts := if pattern.head? ≠ some (ch '/') then true else mux.hosts }

/-- Function `cleanPath`: the canonical path for `p`, eliminating `.` and `..`. -/
def cleanPath (p : GoString) : GoString :=
  if p = [] then go "/"
  else
    let p := if p.head? ≠ some (ch '/') then ch '/' :: p else p
    let np := path.Clean p
    -- path.Clean removes the trailing slash except for root; put it back
    if p.getLast? = some (ch '/') ∧ np ≠ go "/" then
      if p.length = np.length + 1 ∧ strings.HasPrefix p np = true then p
      else np ++ go "/"
    else np

/-- Function `stripHostPort`: `h` without any trailing `:port`. -/
def stripHostPort (h : GoString) : GoString :=
  if !strings.Contains h (go ":") then h
  else
    match net.SplitHostPort h with
    | none => h
    | some (host, _) => host

/-- `(*ServeMux).match`: find a handler given a path, most specific (longest)
pattern first. -/
def ServeMux.match_ {H : Type} (mux : ServeMux H) (path : GoString) : Option (H × GoString) :=
  -- check for exact match first
  match mux.m.lookup path with
  | some v => some (v.h, v.pattern)
  | none =>
    -- check for longest valid match
    match mux.es.find? fun e => strings.HasPrefix path e.pattern with
    | some e => some (e.h, e.pattern)
    | none => none

/-- `(*ServeMux).handler(host, path)`: the main implementation of `Handler`. -/
def ServeMux.handler {H : Type} (mux : ServeMux H) (host path : GoString) :
    Handler H × GoString :=
  -- a host-specific pattern takes precedence over generic ones
  match (if mux.hosts then mux.match_ (host ++ path) else none) with
  | some (h, pattern) => (.registered h, pattern)
  | none =>
    match mux.match_ path with
    | some (h, pattern) => (.registered h, pattern)
    | none => (.NotFoundHandler, [])

/-- `(*ServeMux).shouldRedirectRLocked(host, path)`: whether `path` is not
registered while `path + "/"` is. -/
def ServeMux.shouldRedirectRLocked {H : Type} (mux : ServeMux H) (host path : GoString) : Bool :=
  if [path, host ++ path].any (fun c => (mux.m.lookup c).isSome) then false
  else if path.length = 0 then false
  else if [path, host ++ path].any (fun c => (mux.m.lookup (c ++ go "/")).isSome) then
    path.getLast? != some (ch '/')
  else false

/-- `(*ServeMux).redirectToPathSlash(host, path, u)`. -/
def ServeMux.redirectToPathSlash {H : Type} (mux : ServeMux H) (host path : GoString)
    (u : url.URL) : url.URL × Bool :=
  if !mux.shouldRedirectRLocked host path then (u, false)
  else ({ Path := path ++ go "/", RawQuery := u.RawQuery }, true)

/-- `(*ServeMux).Handler(r)` of the classic `ServeMux`: the handler to use for the
request and the pattern it is registered under.  The match is on the decoded path
`r.URL.Path`; later releases match the escaped path segment by segment, which is
the same for plain patterns and a request without raw path. -/
def ServeMux.Handler {H : Type} (mux : ServeMux H) (r : Request) : Handler H × GoString :=
  if r.Method = go "CONNECT" then
    -- CONNECT requests are not canonicalized
    if (mux.redirectToPathSlash r.URL.Host r.URL.Path r.URL).2 then
      (.RedirectHandler (mux.redirectToPathSlash r.URL.Host r.URL.Path r.URL).1
        StatusMovedPermanently,
       (mux.redirectToPathSlash r.URL.Host r.URL.Path r.URL).1.Path)
    else mux.handler r.Host r.URL.Path
  else
    -- all other requests have any port stripped and path cleaned
    let host := stripHostPort r.Host
    let path := cleanPath r.URL.Path
    if (mux.redirectToPathSlash host path r.URL).2 then
      (.RedirectHandler (mux.redirectToPathSlash host path r.URL).1 StatusMovedPermanently,
       (mux.redirectToPathSlash host path r.URL).1.Path)
    else if path ≠ r.URL.Path then
      (.RedirectHandler { Path := path, RawQuery := r.URL.RawQuery } StatusMovedPermanently,
       (mux.handler host path).2)
    else mux.handler host r.URL.Path

end http

/-! ## Package `net/http/httputil`: the single-host reverse proxy -/

namespace httputil

/-- Type `httputil.ReverseProxy` as `NewSingleHostReverseProxy` builds it: only
`Director` is set, a closure over `target`. -/
structure ReverseProxy where
  target : url.URL
  deriving DecidableEq, Repr

/-- Function `singleJoiningSlash`. -/
def singleJoiningSlash (a b : GoString) : GoString :=
  let aslash := strings.HasSuffix a (go "/")
  let bslash := strings.HasPrefix b (go "/")
  if aslash && bslash then a ++ b.drop 1
  else if !aslash && !bslash then a ++ go "/" ++ b
  else a ++ b

/-- Function `joinURLPath`: the `Path` and `RawPath` of the joined URL. -/
def joinURLPath (a b : url.URL) : GoString × GoString :=
  if a.RawPath = [] ∧ b.RawPath = [] then (singleJoiningSlash a.Path b.Path, [])
  else
    -- same as singleJoiningSlash, but uses EscapedPath to determine whether a
    -- slash should be added
    let apath := url.EscapedPath a
    let bpath := url.EscapedPath b
    let aslash := strings.HasSuffix apath (go "/")
    let bslash := strings.HasPrefix bpath (go "/")
    if aslash && bslash then (a.Path ++ b.Path.drop 1, apath ++ bpath.drop 1)
    else if !aslash && !bslash then (a.Path ++ go "/" ++ b.Path, apath ++ go "/" ++ bpath)
    else (a.Path ++ b.Path, apath ++ bpath)

/-- Function `rewriteRequestURL`: route the request to `target`. -/
def rewriteRequestURL (req : http.Request) (target : url.URL) : http.Request :=
  { req with
    URL := { req.URL with
      Scheme := target.Scheme
      Host := target.Host
      Path := (joinURLPath target req.URL).1
      RawPath := (joinURLPath target req.URL).2
      RawQuery :=
        if target.RawQuery = [] ∨ req.URL.RawQuery = [] then target.RawQuery ++ req.URL.RawQuery
        else target.RawQuery ++ go "&" ++ req.URL.RawQuery } }

/-- `httputil.NewSingleHostReverseProxy(target)`. -/
def NewSingleHostReverseProxy (target : url.URL) : ReverseProxy := ⟨target⟩

/-- The `Director` of the proxy: `rewriteRequestURL(req, target)`. -/
def ReverseProxy.Director (p : ReverseProxy) (req : http.Request) : http.Request :=
  rewriteRequestURL req p.target

/-- The outgoing request of `(*ReverseProxy).ServeHTTP` as the `Director` leaves
it, `outreq` being a clone of the incoming request.  What `ServeHTTP` does next
(hop-by-hop headers, `X-Forwarded-For`, the round trip) is the library's and is
not modelled. -/
def ReverseProxy.outreq (p : ReverseProxy) (req : http.Request) : http.Request :=
  p.Director req

end httputil

/-! ## Package `crypto/tls` and the default transport -/

namespace tls

/-- Type `tls.Config`: the field the program sets. -/
structure Config where
  InsecureSkipVerify : Bool := false
  deriving DecidableEq, Repr

end tls

/-! ## `main.go` -/

/-- A value of the `routes` object as `encoding/json` decodes it into
`interface{}`: a string, or anything else (number, boolean, null, array,
object). -/
inductive Value
  | string (s : GoString)
  | other
  deriving DecidableEq, Repr

/-- The `routes` map of the configuration, in the order the `range` loop visits
it. -/
abbrev RouteConfig := List (GoString × Value)

/-- The handler `Register(p)` returns: a closure over the proxy `p`. -/
structure HandlerFunc where
  p : httputil.ReverseProxy
  deriving DecidableEq, Repr

/-- Function `NewReverseProxy` of `main.go`. -/
def NewReverseProxy (scheme host : GoString) : httputil.ReverseProxy :=
  httputil.NewSingleHostReverseProxy { Scheme := scheme, Host := host }

/-- Function `Register` of `main.go`. -/
def Register (p : httputil.ReverseProxy) : HandlerFunc := ⟨p⟩

/-- What the closure of `Register` does with a request: the arguments of the
`log.Printf` call, if any, and the request it passes to `p.ServeHTTP`. -/
structure Served where
  logged : Option (GoString × GoString)
  proxy : httputil.ReverseProxy
  request : http.Request
  deriving DecidableEq, Repr

/-- The body of the closure `Register` returns; `verbose` is the flag
`-verbose`. -/
def HandlerFunc.ServeHTTP (verbose : Bool) (h : HandlerFunc) (r : http.Request) : Served :=
  { logged := if verbose then some (r.RemoteAddr, r.RequestURI) else none
    proxy := h.p
    request := r }

/-- The panics of the route loop. -/
inductive Panic
  /-- `host.(string)` on a value that is not a string. -/
  | typeAssertion
  /-- A panic of `http.HandleFunc`. -/
  | handle (p : http.HandlePanic)
  deriving DecidableEq, Repr

/-- The default `ServeMux` of the program. -/
abbrev Mux := http.ServeMux HandlerFunc

/-- What one iteration of the route loop decides. -/
inductive Outcome
  /-- The `continue` statements: comment, invalid host, https without the server. -/
  | skip
  /-- The call `http.HandleFunc(path, Register(NewReverseProxy(scheme, host)))`. -/
  | bind (path scheme host : GoString)
  deriving DecidableEq, Repr

/-- The body of the route loop up to the call of `http.HandleFunc`
(`main.go`, lines 68 to 83). -/
def routeEntry (httpsEnabled : Bool) (path : GoString) (host : Value) : Except Panic Outcome :=
  if strings.HasPrefix path (go "#") then
    -- skip comments
    .ok .skip
  else
    match host with
    | .other => .error .typeAssertion
    | .string s =>
      match url.Parse s with
      | .error _ =>
        -- skip invalid hosts
        .ok .skip
      | .ok u =>
        if u.Scheme = go "https" ∧ httpsEnabled = false then .ok .skip
        else .ok (.bind path u.Scheme u.Host)

/-- One iteration of the route loop on the default `ServeMux`. -/
def routeStep (httpsEnabled : Bool) (mux : Mux) (entry : GoString × Value) : Except Panic Mux :=
  match routeEntry httpsEnabled entry.1 entry.2 with
  | .error e => .error e
  | .ok .skip => .ok mux
  | .ok (.bind path scheme host) =>
    match mux.Handle path (Register (NewReverseProxy scheme host)) with
    | .error e => .error (.handle e)
    | .ok mux2 => .ok mux2

/-- The route loop from a given state of the `ServeMux`. -/
def routeLoop (httpsEnabled : Bool) : Mux → RouteConfig → Except Panic Mux
  | mux, [] => .ok mux
  | mux, entry :: rest =>
    match routeStep httpsEnabled mux entry with
    | .error e => .error e
    | .ok mux2 => routeLoop httpsEnabled mux2 rest

/-- The route loop of `main` (lines 67 to 84): the default `ServeMux` after all
the entries of `routes` are processed, or the panic that ends the process. -/
def buildRoutes (routes : RouteConfig) (httpsEnabled : Bool) : Except Panic Mux :=
  routeLoop httpsEnabled {} routes

/-- The two flows of control once the route loop is over: `main` itself, and the
goroutine it starts when HTTPS is enabled (lines 87 to 95). -/
inductive Thread
  | main
  | goroutine
  deriving DecidableEq, Repr

/-- Where `main` is after line 96. -/
inductive MainPC
  /-- Before `http.ListenAndServe` (lines 98 and 99). -/
  | beforeListenAndServe
  /-- Inside `http.ListenAndServe`: the HTTP server takes requests. -/
  | serving
  deriving DecidableEq, Repr

/-- Where the goroutine of lines 87 to 95 is. -/
inductive GoroutinePC
  /-- Started, the assignment of line 89 not yet executed. -/
  | beforeAssignment
  /-- Line 89 executed, before `http.ListenAndServeTLS` (lines 91 and 92). -/
  | beforeListenAndServeTLS
  /-- Inside `http.ListenAndServeTLS`: the HTTPS server takes requests. -/
  | serving
  deriving DecidableEq, Repr

/-- The state of the process from line 96 on. -/
structure Process where
  /-- The default `ServeMux`, shared by the two servers. -/
  mux : Mux
  /-- `http.DefaultTransport.TLSClientConfig`; `none` is Go's `nil`. -/
  TLSClientConfig : Option tls.Config
  mainAt : MainPC
  /-- The goroutine, when one was started. -/
  goroutineAt : Option GoroutinePC
  httpAddress : GoString
  httpsAddress : GoString
  deriving DecidableEq, Repr

/-- Function `main` from the route loop to line 96, given the decoded `routes` and
the flags: the route loop, then, if `httpsEnabled`, the `go` statement, which starts
the goroutine and returns at once. -/
def main (routes : RouteConfig) (httpsEnabled : Bool) (httpAddress httpsAddress : GoString) :
    Except Panic Process :=
  match buildRoutes routes httpsEnabled with
  | .error e => .error e
  | .ok mux =>
    .ok { mux := mux
          TLSClientConfig := none
          mainAt := .beforeListenAndServe
          goroutineAt := if httpsEnabled then some .beforeAssignment else none
          httpAddress := httpAddress
          httpsAddress := httpsAddress }

/-- One step of one flow of control.  `main` enters `http.ListenAndServe` (line 99).
The goroutine first assigns `&tls.Config{InsecureSkipVerify: true}` to the
`TLSClientConfig` of the default transport (line 89), then enters
`http.ListenAndServeTLS` (line 92).  A flow inside its server, or a goroutine that
was never started, has no step left.  (A listener that fails ends the process with
`log.Fatalln`; that is the environment's and is not modelled.) -/
def step (t : Thread) (p : Process) : Process :=
  match t with
  | .main => { p with mainAt := .serving }
  | .goroutine =>
    match p.goroutineAt with
    | some .beforeAssignment =>
      { p with TLSClientConfig := some { InsecureSkipVerify := true }
               goroutineAt := some .beforeListenAndServeTLS }
    | some .beforeListenAndServeTLS => { p with goroutineAt := some .serving }
    | some .serving => p
    | none => p

/-- The process after the scheduler has run the two flows in the given order:
nothing orders the goroutine and `main` after the `go` statement. -/
def run (schedule : List Thread) (p : Process) : Process :=
  schedule.foldl (fun q t => step t q) p

/-- Whether the transport skips the verification of the upstream certificate: a
nil `TLSClientConfig` is the default configuration, which verifies. -/
def skipsVerification (c : Option tls.Config) : Bool :=
  match c with
  | none => false
  | some c => c.InsecureSkipVerify

/-- A request through the whole server: the `ServeMux` picks the handler, a
registered handler passes the request to its proxy, whose `Director` rewrites
it. -/
inductive Response
  | badRequest
  | notFound
  | redirect (u : url.URL) (code : Nat)
  | forwarded (pattern : GoString) (outreq : http.Request)
  deriving DecidableEq, Repr

/-- `(*ServeMux).ServeHTTP(w, r)` with the handlers of this program. -/
def serve (verbose : Bool) (mux : Mux) (r : http.Request) : Response :=
  if r.RequestURI = go "*" then .badRequest
  else
    match mux.Handler r with
    | (.NotFoundHandler, _) => .notFound
    | (.RedirectHandler u code, _) => .redirect u code
    | (.registered h, pattern) =>
      .forwarded pattern ((h.ServeHTTP verbose r).proxy.outreq (h.ServeHTTP verbose r).request)


/-- The Binding of a registered entry: the pattern with the scheme and host of
the target its proxy forwards to. -/
structure Binding where
  pattern : GoString
  scheme : GoString
  host : GoString
  deriving DecidableEq, Repr

/-- The set of Bindings of a route table. -/
def bindings (mux : Mux) : List Binding :=
  mux.m.map fun kv => ⟨kv.1, kv.2.h.p.target.Scheme, kv.2.h.p.target.Host⟩

/-- The map entry an iteration of the route loop adds, if it adds one. -/
def boundEntry (httpsEnabled : Bool) (entry : GoString × Value) :
    Option (GoString × http.muxEntry HandlerFunc) :=
  match routeEntry httpsEnabled entry.1 entry.2 with
  | .ok (.bind path scheme host) => some (path, ⟨Register (NewReverseProxy scheme host), path⟩)
  | _ => none

/-- A key that is a path and nothing else: it begins with `/` and holds none of
the bytes that have a meaning of their own in a `ServeMux` pattern of some release
of `net/http` (a space or a tab ends a method, `{` opens a wildcard, `%` escapes a
byte).  The classic `ServeMux` and the later ones register such a key as it is
written and match it alike. -/
def plainPath (key : GoString) : Bool :=
  key.head? == some (ch '/') &&
  key.all fun c => c != ch ' ' && c != 9 && c != ch '{' && c != ch '%'

/-- The invariant of a `ServeMux` that only `Handle` has written to: the map is
keyed by the patterns of its entries, `es` holds the entries whose pattern ends in
`/`, longest pattern first, and `hosts` says whether a pattern does not begin with
`/`. -/
structure MuxInv {H : Type} (mux : http.ServeMux H) : Prop where
  keys : ∀ kv ∈ mux.m, kv.2.pattern = kv.1
  nodup : (mux.m.map Prod.fst).Nodup
  es_perm : mux.es.Perm
    ((mux.m.map Prod.snd).filter fun e => decide (e.pattern.getLast? = some (ch '/')))
  es_sorted : mux.es.Pairwise fun a b => b.pattern.length ≤ a.pattern.length
  hosts : mux.hosts = mux.m.any fun kv => decide (kv.1.head? ≠ some (ch '/'))

/-! ## Configurations and requests used as examples -/

/-- The handler the loop registers for the target `scheme://host`. -/
def proxyTo (scheme host : String) : HandlerFunc :=
  Register (NewReverseProxy (go scheme) (go host))

/-- Scenario 1 of the specification: `{"/a": "http://upstream1:9000"}`. -/
def routesA : RouteConfig := [(go "/a", .string (go "http://upstream1:9000"))]

/-- The table of `routesA`: `/a` bound to `http://upstream1:9000`. -/
def muxA : Mux := { m := [(go "/a", ⟨proxyTo "http" "upstream1:9000", go "/a"⟩)] }

/-- Scenario 2: `{"/b": "https://upstream2:9443"}`. -/
def routesB : RouteConfig := [(go "/b", .string (go "https://upstream2:9443"))]

/-- The table of `routesB` when the HTTPS server is enabled. -/
def muxB : Mux := { m := [(go "/b", ⟨proxyTo "https" "upstream2:9443", go "/b"⟩)] }

/-- Scenario 2 with the scheme in upper case: `{"/b": "HTTPS://upstream2:9443"}`. -/
def routesBUpper : RouteConfig := [(go "/b", .string (go "HTTPS://upstream2:9443"))]

/-- An `https` entry with the empty key: `{"": "https://upstream2:9443"}`. -/
def routesEmptyKeyHttps : RouteConfig := [([], .string (go "https://upstream2:9443"))]

/-- Scenario 3: `{"#/c": "http://upstream3:9000"}`. -/
def routesC : RouteConfig := [(go "#/c", .string (go "http://upstream3:9000"))]

/-- Scenario 4: `{"/d": "::not a url::"}`. -/
def routesD : RouteConfig := [(go "/d", .string (go "::not a url::"))]

/-- Targets that `url.Parse` accepts although they are not absolute URLs. -/
def routesRelative : RouteConfig :=
  [(go "/e", .string []), (go "/x", .string (go "localhost")),
   (go "/y", .string (go "/only/a/path")), (go "/z", .string (go "localhost:9000"))]

/-- A target with every component of a URL. -/
def fullTarget : GoString := go "http://user:pw@upstream1:9000/base/path?x=1#frag"

/-- The table of the four scenarios and `/full`, bound to `fullTarget`, with HTTPS
disabled. -/
def muxFull : Mux :=
  { m := muxA.m ++ [(go "/full", ⟨proxyTo "http" "upstream1:9000", go "/full"⟩)] }

/-- An entry with the empty key. -/
def routesEmptyKey : RouteConfig := [([], .string (go "http://upstream1:9000"))]

/-- The request `GET /a/x?q=1 HTTP/1.1` with a header and no body. -/
def getRequest : http.Request :=
  { Method := go "GET", URL := { Path := go "/a/x", RawQuery := go "q=1" },
    Header := [(go "Accept", [go "*/*"])], Host := go "proxy",
    RemoteAddr := go "10.0.0.1:5000", RequestURI := go "/a/x?q=1" }

/-- A subtree pattern: `{"/a/": "http://upstream1:9000"}`. -/
def routesSubtree : RouteConfig := [(go "/a/", .string (go "http://upstream1:9000"))]

/-- The table of `routesSubtree`. -/
def muxSubtree : Mux :=
  { m := [(go "/a/", ⟨proxyTo "http" "upstream1:9000", go "/a/"⟩)]
    es := [⟨proxyTo "http" "upstream1:9000", go "/a/"⟩] }

/-- The request `GET /a HTTP/1.1`. -/
def getA : http.Request :=
  { Method := go "GET", URL := { Path := go "/a" }, Host := go "proxy",
    RemoteAddr := go "10.0.0.1:5000", RequestURI := go "/a" }

/-- All four scenarios in one configuration. -/
def routesABCD : RouteConfig := routesA ++ routesB ++ routesC ++ routesD

/-- The four scenarios and an entry with the empty key whose target does not
parse. -/
def routesSkippedEmptyKey : RouteConfig :=
  routesABCD ++ [([], .string (go "::not a url::"))]

/-! ## Facts about the map and `Handle` -/

theorem lookup_eq_none_iff {V : Type} (m : List (GoString × V)) (k : GoString) :
    m.lookup k = none ↔ k ∉ m.map Prod.fst := by
  induction m with
  | nil => simp
  | cons a m ih =>
    obtain ⟨k2, v⟩ := a
    by_cases h : k = k2
    · subst h; simp [List.lookup]
    · have h2 : (k == k2) = false := by simpa using h
      simp [List.lookup, h2, ih, h]

theorem lookup_append_absent {V : Type} (m : List (GoString × V)) (k k2 : GoString) (v : V)
    (h : m.lookup k2 = none) :
    (m ++ [(k2, v)]).lookup k = if k = k2 then some v else m.lookup k := by
  induction m with
  | nil =>
    by_cases hk : k = k2
    · simp [List.lookup, hk]
    · have hk2 : (k == k2) = false := by simpa using hk
      simp [List.lookup, hk, hk2]
  | cons a m ih =>
    obtain ⟨k3, v3⟩ := a
    by_cases h3 : k2 = k3
    · subst h3; simp [List.lookup] at h
    · have h4 : (k2 == k3) = false := by simpa using h3
      simp only [List.lookup, h4] at h
      by_cases h5 : k = k3
      · subst h5
        have : ¬ k = k2 := fun e => h3 e.symm
        simp [List.lookup, this]
      · have h6 : (k == k3) = false := by simpa using h5
        simp only [List.cons_append, List.lookup, h6]
        exact ih h

theorem mapSet_absent {V : Type} (m : List (GoString × V)) (k : GoString) (v : V)
    (h : m.lookup k = none) : http.mapSet m k v = m ++ [(k, v)] := by
  simp [http.mapSet, h]

theorem Handle_ok_iff {H : Type} (mux mux2 : http.ServeMux H) (pattern : GoString) (hd : H) :
    mux.Handle pattern hd = .ok mux2 ↔
      pattern ≠ [] ∧ mux.m.lookup pattern = none ∧
      mux2 = { m := mux.m ++ [(pattern, ⟨hd, pattern⟩)]
               es := if pattern.getLast? = some (ch '/') then
                       http.appendSorted mux.es ⟨hd, pattern⟩ else mux.es
               hosts := if pattern.head? ≠ some (ch '/') then true else mux.hosts } := by
  unfold http.ServeMux.Handle
  by_cases h1 : pattern = []
  · simp [h1]
  · cases h2 : mux.m.lookup pattern with
    | some v => simp [h1]
    | none =>
      simp only [h1, if_false, Option.isSome_none, Bool.false_eq_true, mapSet_absent _ _ _ h2]
      constructor
      · intro h; injection h with h; exact ⟨h1, trivial, h.symm⟩
      · rintro ⟨-, -, h⟩; rw [h]

/-! ## Facts about the route loop -/

theorem routeEntry_comment (httpsEnabled : Bool) (path : GoString) (host : Value)
    (h : strings.HasPrefix path (go "#") = true) :
    routeEntry httpsEnabled path host = .ok .skip := by
  simp [routeEntry, h]

theorem routeEntry_bind (httpsEnabled : Bool) (path : GoString) (host : Value)
    (p s ho : GoString) (h : routeEntry httpsEnabled path host = .ok (.bind p s ho)) :
    p = path ∧ strings.HasPrefix path (go "#") = false ∧
    ∃ target u, host = .string target ∧ url.Parse target = .ok u ∧
      ¬ (u.Scheme = go "https" ∧ httpsEnabled = false) ∧ s = u.Scheme ∧ ho = u.Host := by
  unfold routeEntry at h
  split at h
  · simp at h
  · rename_i hc
    cases host with
    | other => simp at h
    | string target =>
      simp only at h
      cases hp : url.Parse target with
      | error e => simp [hp] at h
      | ok u =>
        simp only [hp] at h
        split at h
        · simp at h
        · rename_i hf
          injection h with h
          injection h with h1 h2 h3
          exact ⟨h1.symm, by simpa using hc, target, u, rfl, hp, hf, h2.symm, h3.symm⟩

theorem boundEntry_eq_some (httpsEnabled : Bool) (entry : GoString × Value)
    (b : GoString × http.muxEntry HandlerFunc) (h : boundEntry httpsEnabled entry = some b) :
    ∃ s ho, routeEntry httpsEnabled entry.1 entry.2 = .ok (.bind entry.1 s ho) ∧
      b = (entry.1, ⟨Register (NewReverseProxy s ho), entry.1⟩) := by
  unfold boundEntry at h
  split at h
  · rename_i p s ho hr
    have := (routeEntry_bind _ _ _ _ _ _ hr).1
    subst this
    injection h with h
    exact ⟨s, ho, hr, h.symm⟩
  · simp at h

theorem boundEntry_of_bind (httpsEnabled : Bool) (entry : GoString × Value) (s ho : GoString)
    (h : routeEntry httpsEnabled entry.1 entry.2 = .ok (.bind entry.1 s ho)) :
    boundEntry httpsEnabled entry = some (entry.1, ⟨Register (NewReverseProxy s ho), entry.1⟩) := by
  simp [boundEntry, h]

theorem boundEntry_of_skip (httpsEnabled : Bool) (entry : GoString × Value)
    (h : routeEntry httpsEnabled entry.1 entry.2 = .ok .skip) :
    boundEntry httpsEnabled entry = none := by
  simp [boundEntry, h]

/-- An iteration of the loop either leaves the table alone or is a successful
`Handle` of the entry it binds. -/
theorem routeStep_ok (httpsEnabled : Bool) (mux mux2 : Mux) (entry : GoString × Value)
    (h : routeStep httpsEnabled mux entry = .ok mux2) :
    (routeEntry httpsEnabled entry.1 entry.2 = .ok .skip ∧ mux2 = mux) ∨
    ∃ s ho, routeEntry httpsEnabled entry.1 entry.2 = .ok (.bind entry.1 s ho) ∧
      mux.Handle entry.1 (Register (NewReverseProxy s ho)) = .ok mux2 := by
  unfold routeStep at h
  split at h
  · simp at h
  · rename_i hr
    injection h with h
    exact Or.inl ⟨hr, h.symm⟩
  · rename_i p s ho hr
    have hp := (routeEntry_bind _ _ _ _ _ _ hr).1
    subst hp
    right
    refine ⟨s, ho, hr, ?_⟩
    split at h
    · simp at h
    · rename_i m3 hh
      injection h with h
      rw [hh, h]

theorem routeStep_skip (httpsEnabled : Bool) (mux : Mux) (entry : GoString × Value)
    (h : routeEntry httpsEnabled entry.1 entry.2 = .ok .skip) :
    routeStep httpsEnabled mux entry = .ok mux := by
  simp [routeStep, h]

theorem routeLoop_append (httpsEnabled : Bool) (l1 l2 : RouteConfig) (mux : Mux) :
    routeLoop httpsEnabled mux (l1 ++ l2) =
      match routeLoop httpsEnabled mux l1 with
      | .error e => .error e
      | .ok mux2 => routeLoop httpsEnabled mux2 l2 := by
  induction l1 generalizing mux with
  | nil => simp [routeLoop]
  | cons a l1 ih =>
    simp only [List.cons_append, routeLoop]
    cases routeStep httpsEnabled mux a with
    | error e => simp
    | ok m2 => simp [ih]

/-- The map of the table after the loop: the entries the loop bound, appended in
the order of the iteration. -/
theorem routeLoop_m (httpsEnabled : Bool) (routes : RouteConfig) (mux mux2 : Mux)
    (h : routeLoop httpsEnabled mux routes = .ok mux2) :
    mux2.m = mux.m ++ routes.filterMap (boundEntry httpsEnabled) := by
  induction routes generalizing mux with
  | nil => simp [routeLoop] at h; simp [h]
  | cons a routes ih =>
    simp only [routeLoop] at h
    cases hs : routeStep httpsEnabled mux a with
    | error e => simp [hs] at h
    | ok m3 =>
      simp only [hs] at h
      rw [ih m3 h]
      rcases routeStep_ok _ _ _ _ hs with ⟨hr, rfl⟩ | ⟨s, ho, hr, hh⟩
      · simp [List.filterMap_cons, boundEntry_of_skip _ _ hr]
      · rw [Handle_ok_iff] at hh
        rw [hh.2.2]
        simp [List.filterMap_cons, boundEntry_of_bind _ _ _ _ hr]

theorem buildRoutes_m (httpsEnabled : Bool) (routes : RouteConfig) (mux : Mux)
    (h : buildRoutes routes httpsEnabled = .ok mux) :
    mux.m = routes.filterMap (boundEntry httpsEnabled) := by
  have := routeLoop_m httpsEnabled routes {} mux h
  simpa using this


theorem Handle_error {H : Type} (mux : http.ServeMux H) (pattern : GoString) (hd : H)
    (e : http.HandlePanic) (h : mux.Handle pattern hd = .error e) :
    pattern = [] ∨ mux.m.lookup pattern ≠ none := by
  by_contra hc
  push_neg at hc
  have := (Handle_ok_iff mux _ pattern hd).2 ⟨hc.1, hc.2, rfl⟩
  rw [h] at this
  cases this

/-- When the loop completes: no entry panics in its type assertion, the bound
patterns are not empty, not yet registered, and pairwise different. -/
theorem routeLoop_ok_iff (httpsEnabled : Bool) (routes : RouteConfig) (mux : Mux) :
    (∃ mux2, routeLoop httpsEnabled mux routes = .ok mux2) ↔
      (∀ e ∈ routes, ∃ o, routeEntry httpsEnabled e.1 e.2 = .ok o) ∧
      (∀ b ∈ routes.filterMap (boundEntry httpsEnabled), b.1 ≠ [] ∧ mux.m.lookup b.1 = none) ∧
      ((routes.filterMap (boundEntry httpsEnabled)).map Prod.fst).Nodup := by
  induction routes generalizing mux with
  | nil => simp [routeLoop]
  | cons a routes ih =>
    cases hr : routeEntry httpsEnabled a.1 a.2 with
    | error e =>
      have hs : routeStep httpsEnabled mux a = .error e := by simp [routeStep, hr]
      simp only [routeLoop, hs]
      constructor
      · rintro ⟨m, hm⟩; cases hm
      · rintro ⟨hall, -⟩
        obtain ⟨o, ho⟩ := hall a (List.mem_cons_self _ _)
        rw [hr] at ho; cases ho
    | ok o =>
      cases o with
      | skip =>
        have hs := routeStep_skip httpsEnabled mux a hr
        have hb := boundEntry_of_skip httpsEnabled a hr
        simp only [routeLoop, hs, List.filterMap_cons, hb, ih mux, List.forall_mem_cons]
        constructor
        · rintro ⟨h1, h2⟩; exact ⟨⟨⟨_, hr⟩, h1⟩, h2⟩
        · rintro ⟨⟨-, h1⟩, h2⟩; exact ⟨h1, h2⟩
      | bind p s ho =>
        obtain rfl := (routeEntry_bind _ _ _ _ _ _ hr).1
        have hb := boundEntry_of_bind httpsEnabled a s ho hr
        simp only [List.filterMap_cons, hb, List.forall_mem_cons, List.map_cons, List.nodup_cons]
        cases hh : mux.Handle a.1 (Register (NewReverseProxy s ho)) with
        | error e =>
          have hs : routeStep httpsEnabled mux a = .error (.handle e) := by
            simp [routeStep, hr, hh]
          simp only [routeLoop, hs]
          constructor
          · rintro ⟨m, hm⟩; cases hm
          · rintro ⟨-, ⟨⟨h1, h2⟩, -⟩, -⟩
            rcases Handle_error _ _ _ _ hh with h3 | h3
            · exact absurd h3 h1
            · exact absurd h2 h3
        | ok mux3 =>
          have hs : routeStep httpsEnabled mux a = .ok mux3 := by simp [routeStep, hr, hh]
          rw [Handle_ok_iff] at hh
          obtain ⟨hne, hlk, hm3⟩ := hh
          have hm : mux3.m = mux.m ++ [(a.1, ⟨Register (NewReverseProxy s ho), a.1⟩)] := by
            rw [hm3]
          simp only [routeLoop, hs, ih mux3, hm, lookup_append_absent _ _ _ _ hlk]
          constructor
          · rintro ⟨h1, h2, h3⟩
            refine ⟨⟨⟨_, hr⟩, h1⟩, ⟨⟨hne, hlk⟩, ?_⟩, ?_, h3⟩
            · intro b hbm
              have := h2 b hbm
              refine ⟨this.1, ?_⟩
              by_cases hk : b.1 = a.1
              · simp [hk] at this
              · simpa [hk] using this.2
            · intro hmem
              obtain ⟨b, hbm, hb1⟩ := List.mem_map.1 hmem
              have := (h2 b hbm).2
              simp [hb1] at this
          · rintro ⟨⟨-, h1⟩, ⟨-, h2⟩, h3, h4⟩
            refine ⟨h1, ?_, h4⟩
            intro b hbm
            refine ⟨(h2 b hbm).1, ?_⟩
            have hk : ¬ b.1 = a.1 := fun e => h3 (e ▸ List.mem_map_of_mem _ hbm)
            simpa [hk] using (h2 b hbm).2

theorem buildRoutes_ok_iff (httpsEnabled : Bool) (routes : RouteConfig) :
    (∃ mux, buildRoutes routes httpsEnabled = .ok mux) ↔
      (∀ e ∈ routes, ∃ o, routeEntry httpsEnabled e.1 e.2 = .ok o) ∧
      (∀ b ∈ routes.filterMap (boundEntry httpsEnabled), b.1 ≠ []) ∧
      ((routes.filterMap (boundEntry httpsEnabled)).map Prod.fst).Nodup := by
  unfold buildRoutes
  rw [routeLoop_ok_iff]
  simp

/-- The keys of the built map are pairwise different. -/
theorem buildRoutes_nodup (httpsEnabled : Bool) (routes : RouteConfig) (mux : Mux)
    (h : buildRoutes routes httpsEnabled = .ok mux) : (mux.m.map Prod.fst).Nodup := by
  rw [buildRoutes_m _ _ _ h]
  exact ((buildRoutes_ok_iff httpsEnabled routes).1 ⟨mux, h⟩).2.2

theorem lookup_of_mem_nodup {V : Type} (m : List (GoString × V)) (k : GoString) (v : V)
    (hn : (m.map Prod.fst).Nodup) (hm : (k, v) ∈ m) : m.lookup k = some v := by
  induction m with
  | nil => cases hm
  | cons a m ih =>
    obtain ⟨k2, v2⟩ := a
    simp only [List.map_cons, List.nodup_cons] at hn
    rcases List.mem_cons.1 hm with h | h
    · injection h with h1 h2; subst h1; subst h2; simp [List.lookup]
    · have hk : k ≠ k2 := by
        rintro rfl
        exact hn.1 (List.mem_map_of_mem Prod.fst h)
      have hk2 : (k == k2) = false := by simpa using hk
      simp only [List.lookup, hk2]
      exact ih hn.2 h

theorem mem_of_lookup {V : Type} (m : List (GoString × V)) (k : GoString) (v : V)
    (h : m.lookup k = some v) : (k, v) ∈ m := by
  induction m with
  | nil => simp [List.lookup] at h
  | cons a m ih =>
    obtain ⟨k2, v2⟩ := a
    by_cases hk : k = k2
    · subst hk; simp [List.lookup] at h; simp [h]
    · have hk2 : (k == k2) = false := by simpa using hk
      simp only [List.lookup, hk2] at h
      exact List.mem_cons_of_mem _ (ih h)


theorem key_unique_of_nodup {V : Type} (m : List (GoString × V)) (k : GoString) (v v2 : V)
    (hn : (m.map Prod.fst).Nodup) (h1 : (k, v) ∈ m) (h2 : (k, v2) ∈ m) : v = v2 := by
  have a := lookup_of_mem_nodup m k v hn h1
  have b := lookup_of_mem_nodup m k v2 hn h2
  rw [a] at b
  injection b

/-- A bound entry of the configuration is in the map of the table. -/
theorem lookup_bound (httpsEnabled : Bool) (routes : RouteConfig) (mux : Mux)
    (e : GoString × Value) (s ho : GoString)
    (hb : buildRoutes routes httpsEnabled = .ok mux) (hm : e ∈ routes)
    (hr : routeEntry httpsEnabled e.1 e.2 = .ok (.bind e.1 s ho)) :
    mux.m.lookup e.1 = some ⟨Register (NewReverseProxy s ho), e.1⟩ := by
  apply lookup_of_mem_nodup _ _ _ (buildRoutes_nodup _ _ _ hb)
  rw [buildRoutes_m _ _ _ hb, List.mem_filterMap]
  exact ⟨e, hm, boundEntry_of_bind _ _ _ _ hr⟩

/-- A skipped entry of the configuration (a map: its keys are pairwise different)
leaves its key unregistered. -/
theorem lookup_skipped (httpsEnabled : Bool) (routes : RouteConfig) (mux : Mux)
    (e : GoString × Value) (hk : (routes.map Prod.fst).Nodup)
    (hb : buildRoutes routes httpsEnabled = .ok mux) (hm : e ∈ routes)
    (hr : routeEntry httpsEnabled e.1 e.2 = .ok .skip) :
    mux.m.lookup e.1 = none := by
  rw [lookup_eq_none_iff, buildRoutes_m _ _ _ hb]
  intro hmem
  obtain ⟨b, hbm, hb1⟩ := List.mem_map.1 hmem
  obtain ⟨e2, he2, hbe⟩ := List.mem_filterMap.1 hbm
  obtain ⟨s, ho, hr2, hbeq⟩ := boundEntry_eq_some _ _ _ hbe
  have hkey : e2.1 = e.1 := by rw [← hb1, hbeq]
  have h1 : (e.1, e.2) ∈ routes := hm
  have h2 : (e.1, e2.2) ∈ routes := by rw [← hkey]; exact he2
  have := key_unique_of_nodup routes e.1 e.2 e2.2 hk h1 h2
  rw [hkey, ← this, hr] at hr2
  cases hr2

theorem filter_key_of_nodup {V : Type} (m : List (GoString × V)) (k : GoString) (v : V)
    (hn : (m.map Prod.fst).Nodup) (hm : (k, v) ∈ m) :
    m.filter (fun kv => decide (kv.1 = k)) = [(k, v)] := by
  induction m with
  | nil => cases hm
  | cons a m ih =>
    obtain ⟨k2, v2⟩ := a
    simp only [List.map_cons, List.nodup_cons] at hn
    rcases List.mem_cons.1 hm with h | h
    · injection h with h1 h2; subst h1; subst h2
      have : m.filter (fun kv => decide (kv.1 = k)) = [] := by
        rw [List.filter_eq_nil_iff]
        intro kv hkv hd
        have : kv.1 = k := by simpa using hd
        exact hn.1 (this ▸ List.mem_map_of_mem Prod.fst hkv)
      simp [List.filter_cons, this]
    · have hk : k2 ≠ k := by
        rintro rfl
        exact hn.1 (List.mem_map_of_mem Prod.fst h)
      simp [List.filter_cons, hk, ih hn.2 h]

/-! ## The claims about the route table builder -/

/-- C1: an entry whose path-prefix starts with `#` is skipped by the loop, whatever
its target is (a URL, an invalid URL, not even a string) and whatever
`httpsEnabled` is: the loop gives the same result with the entry as without it, and
a table the loop builds has no handler and no Binding at that prefix.  For the
configuration `{"#/c": "http://upstream3:9000"}` the table is empty, so nothing is
registered for `/c` either. -/
theorem comment_entry_is_never_registered (httpsEnabled : Bool) (path : GoString)
    (host : Value) (hcomment : strings.HasPrefix path (go "#") = true) :
    routeEntry httpsEnabled path host = .ok .skip ∧
    (∀ before after : RouteConfig,
      buildRoutes (before ++ (path, host) :: after) httpsEnabled =
        buildRoutes (before ++ after) httpsEnabled) ∧
    (∀ (routes : RouteConfig) (mux : Mux), buildRoutes routes httpsEnabled = .ok mux →
      mux.m.lookup path = none ∧ ∀ b ∈ bindings mux, b.pattern ≠ path) ∧
    buildRoutes routesC httpsEnabled = .ok {} := by
  have hskip := routeEntry_comment httpsEnabled path host hcomment
  refine ⟨hskip, ?_, ?_, ?_⟩
  · intro before after
    unfold buildRoutes
    rw [routeLoop_append, routeLoop_append]
    cases routeLoop httpsEnabled {} before with
    | error e => rfl
    | ok m =>
      simp only [routeLoop]
      rw [routeStep_skip httpsEnabled m (path, host) hskip]
  · intro routes mux hbuild
    have hkey : path ∉ mux.m.map Prod.fst := by
      rw [buildRoutes_m _ _ _ hbuild]
      intro hmem
      obtain ⟨b, hbm, hb1⟩ := List.mem_map.1 hmem
      obtain ⟨e, -, hbe⟩ := List.mem_filterMap.1 hbm
      obtain ⟨s, ho, hr, hbeq⟩ := boundEntry_eq_some _ _ _ hbe
      have h1 := (routeEntry_bind _ _ _ _ _ _ hr).2.1
      have h2 : e.1 = path := by rw [← hb1, hbeq]
      rw [h2, hcomment] at h1
      cases h1
    refine ⟨(lookup_eq_none_iff _ _).2 hkey, ?_⟩
    intro b hb hp
    obtain ⟨kv, hkv, rfl⟩ := List.mem_map.1 hb
    exact hkey (hp ▸ List.mem_map_of_mem Prod.fst hkv)
  · cases httpsEnabled <;> decide

/-- Witness of C1: the four scenarios in one configuration, HTTPS disabled: only
`/a` is registered, nothing at `#/c`, and the table is the one of the
configuration without `#/c`. -/
theorem comment_entry_is_never_registered_witness :
    routeEntry false (go "#/c") (.string (go "http://upstream3:9000")) = .ok .skip ∧
    buildRoutes ((routesA ++ routesB) ++ (go "#/c", .string (go "http://upstream3:9000")) ::
      routesD) false = buildRoutes ((routesA ++ routesB) ++ routesD) false ∧
    (muxA.m.lookup (go "#/c") = none ∧ ∀ b ∈ bindings muxA, b.pattern ≠ go "#/c") ∧
    buildRoutes routesC false = .ok {} :=
  have h := comment_entry_is_never_registered false (go "#/c")
    (.string (go "http://upstream3:9000")) (by decide)
  ⟨h.1, h.2.1 (routesA ++ routesB) routesD, h.2.2.1 routesABCD muxA (by decide), h.2.2.2⟩

/-- C2, counterexample: the entry with the empty key and the target
`https://upstream2:9443` does not start with `#`, its target parses to the scheme
`https`, HTTPS is enabled, and no Binding is created for it: `http.HandleFunc`
panics on the empty pattern and the process has no table. -/
theorem https_entry_with_empty_key_gets_no_binding :
    strings.HasPrefix [] (go "#") = false ∧
    (url.Parse (go "https://upstream2:9443")).map (fun u => u.Scheme) = .ok (go "https") ∧
    routeEntry true [] (.string (go "https://upstream2:9443")) =
      .ok (.bind [] (go "https") (go "upstream2:9443")) ∧
    buildRoutes routesEmptyKeyHttps true = .error (.handle .invalidPattern) ∧
    (buildRoutes routesEmptyKeyHttps true).toOption.map bindings = none := by
  decide

/-- C2, amended: in a configuration (a map: its keys are pairwise different) on
which the route loop completes, for an entry whose path-prefix does not start with
`#` and whose target parses to a URL of scheme `https` (the scheme as `url.Parse`
returns it, in lower case): the loop binds the prefix to `(https, host)` if
`httpsEnabled` is true and skips the entry if it is false, and the table has a
Binding at the prefix if and only if `httpsEnabled` is true. -/
theorem https_entry_bound_iff_enabled (routes : RouteConfig) (httpsEnabled : Bool) (mux : Mux)
    (path target : GoString) (u : url.URL)
    (hbuild : buildRoutes routes httpsEnabled = .ok mux)
    (hkeys : (routes.map Prod.fst).Nodup)
    (hmem : (path, Value.string target) ∈ routes)
    (hpath : strings.HasPrefix path (go "#") = false)
    (hparse : url.Parse target = .ok u)
    (hscheme : u.Scheme = go "https") :
    routeEntry httpsEnabled path (.string target) =
      (if httpsEnabled then .ok (.bind path (go "https") u.Host) else .ok .skip) ∧
    mux.m.lookup path =
      (if httpsEnabled then some ⟨Register (NewReverseProxy (go "https") u.Host), path⟩
       else none) ∧
    ((∃ b ∈ bindings mux, b.pattern = path) ↔ httpsEnabled = true) ∧
    (bindings mux).filter (fun b => decide (b.pattern = path)) =
      (if httpsEnabled then [⟨path, go "https", u.Host⟩] else []) := by
  have hentry : routeEntry httpsEnabled path (.string target) =
      (if httpsEnabled then .ok (.bind path (go "https") u.Host) else .ok .skip) := by
    cases httpsEnabled <;> simp [routeEntry, hpath, hparse, hscheme]
  have hfilter : (bindings mux).filter (fun b => decide (b.pattern = path)) =
      (mux.m.filter fun kv => decide (kv.1 = path)).map
        fun kv => ⟨kv.1, kv.2.h.p.target.Scheme, kv.2.h.p.target.Host⟩ := by
    unfold bindings
    rw [List.filter_map]
    rfl
  refine ⟨hentry, ?_⟩
  cases httpsEnabled with
  | true =>
    simp only [if_true] at hentry ⊢
    have hl := lookup_bound true routes mux (path, .string target) _ _ hbuild hmem hentry
    have hm := mem_of_lookup _ _ _ hl
    refine ⟨hl, ⟨fun _ => by trivial, fun _ => ⟨_, List.mem_map.2 ⟨_, hm, rfl⟩, rfl⟩⟩, ?_⟩
    rw [hfilter, filter_key_of_nodup mux.m path _ (buildRoutes_nodup _ _ _ hbuild) hm]
    rfl
  | false =>
    simp only [Bool.false_eq_true, if_false] at hentry ⊢
    have hl := lookup_skipped false routes mux (path, .string target) hkeys hbuild hmem hentry
    have hkey := (lookup_eq_none_iff _ _).1 hl
    refine ⟨hl, ⟨?_, fun h => by cases h⟩, ?_⟩
    · rintro ⟨b, hb, hp⟩
      obtain ⟨kv, hkv, rfl⟩ := List.mem_map.1 hb
      exact absurd (hp ▸ List.mem_map_of_mem Prod.fst hkv) hkey
    · rw [hfilter, List.filter_eq_nil_iff.2, List.map_nil]
      intro kv hkv hd
      have : kv.1 = path := by simpa using hd
      exact hkey (this ▸ List.mem_map_of_mem Prod.fst hkv)

/-- Witness of C2 amended: `{"/b": "HTTPS://upstream2:9443"}`, whose scheme parses
to `https`: with HTTPS disabled the entry is skipped and the table has nothing at
`/b`, with HTTPS enabled the table binds `/b` to `(https, upstream2:9443)`. -/
theorem https_entry_bound_iff_enabled_witness :
    (routeEntry false (go "/b") (.string (go "HTTPS://upstream2:9443")) = .ok .skip ∧
     ({} : Mux).m.lookup (go "/b") = none ∧
     ((∃ b ∈ bindings {}, b.pattern = go "/b") ↔ false = true) ∧
     (bindings {}).filter (fun b => decide (b.pattern = go "/b")) = []) ∧
    (routeEntry true (go "/b") (.string (go "HTTPS://upstream2:9443")) =
       .ok (.bind (go "/b") (go "https") (go "upstream2:9443")) ∧
     muxB.m.lookup (go "/b") = some ⟨proxyTo "https" "upstream2:9443", go "/b"⟩ ∧
     ((∃ b ∈ bindings muxB, b.pattern = go "/b") ↔ true = true) ∧
     (bindings muxB).filter (fun b => decide (b.pattern = go "/b")) =
       [⟨go "/b", go "https", go "upstream2:9443"⟩]) :=
  ⟨https_entry_bound_iff_enabled routesBUpper false {} (go "/b") (go "HTTPS://upstream2:9443")
      { Scheme := go "https", Host := go "upstream2:9443" }
      (by decide) (by decide) (by decide) (by decide) (by decide) (by decide),
   https_entry_bound_iff_enabled routesBUpper true muxB (go "/b") (go "HTTPS://upstream2:9443")
      { Scheme := go "https", Host := go "upstream2:9443" }
      (by decide) (by decide) (by decide) (by decide) (by decide) (by decide)⟩

/-- C3: an entry whose target fails URL parsing, or whose target has the scheme
`https` while `httpsEnabled` is false, is skipped and drops only itself: the loop
on the configuration gives the same result, table or panic, as the loop on the
configuration without the entry.  In particular it completes whenever the loop on
the remaining entries does. -/
theorem dropped_entry_drops_only_itself (httpsEnabled : Bool) (before after : RouteConfig)
    (path target : GoString)
    (hdrop : (∃ e, url.Parse target = .error e) ∨
      (∃ u, url.Parse target = .ok u ∧ u.Scheme = go "https" ∧ httpsEnabled = false)) :
    routeEntry httpsEnabled path (.string target) = .ok .skip ∧
    buildRoutes (before ++ (path, .string target) :: after) httpsEnabled =
      buildRoutes (before ++ after) httpsEnabled := by
  have hskip : routeEntry httpsEnabled path (.string target) = .ok .skip := by
    unfold routeEntry
    split
    · rfl
    · rcases hdrop with ⟨e, he⟩ | ⟨u, hu, hs, hh⟩
      · simp [he]
      · simp [hu, hs, hh]
  refine ⟨hskip, ?_⟩
  unfold buildRoutes
  rw [routeLoop_append, routeLoop_append]
  cases routeLoop httpsEnabled {} before with
  | error e => rfl
  | ok m =>
    simp only [routeLoop]
    rw [routeStep_skip httpsEnabled m (path, .string target) hskip]

/-- Witness of C3: `/d` with the target `::not a url::` between `/a` and `/b`: the
result is the one of `/a` and `/b` alone, and `{"/d": "::not a url::"}` alone builds
the empty table. -/
theorem dropped_entry_drops_only_itself_witness :
    (routeEntry false (go "/d") (.string (go "::not a url::")) = .ok .skip ∧
     buildRoutes (routesA ++ (go "/d", .string (go "::not a url::")) :: routesB) false =
       buildRoutes (routesA ++ routesB) false) ∧
    buildRoutes (routesA ++ routesB) false = .ok muxA ∧
    buildRoutes routesD false = .ok {} :=
  ⟨dropped_entry_drops_only_itself false routesA routesB (go "/d") (go "::not a url::")
    (Or.inl ⟨.missingProtocolScheme, by decide⟩), by decide, by decide⟩


/-- C4, counterexample: the entry with the empty key and the target
`http://upstream1:9000` passes the three filters, and no handler is registered
for it: `http.HandleFunc` panics on the empty pattern and there is no table. -/
theorem passing_entry_with_empty_key_is_not_registered :
    strings.HasPrefix [] (go "#") = false ∧
    (url.Parse (go "http://upstream1:9000")).map (fun u => (u.Scheme, u.Host)) =
      .ok (go "http", go "upstream1:9000") ∧
    routeEntry false [] (.string (go "http://upstream1:9000")) =
      .ok (.bind [] (go "http") (go "upstream1:9000")) ∧
    (buildRoutes routesEmptyKey false).toOption.map bindings = none := by
  decide

/-- C4, amended: in a configuration on which the route loop completes, an entry
that passes the three filters (prefix not starting with `#`, target parsed, not
`https` with HTTPS disabled) has exactly one handler registered, at its literal
prefix; the upstream of the handler is the scheme and the host of the entry's own
parsed URL and nothing else of it, whatever the other entries are. -/
theorem passing_entry_bound_to_own_scheme_and_host (routes : RouteConfig) (httpsEnabled : Bool)
    (mux : Mux) (path target : GoString) (u : url.URL)
    (hbuild : buildRoutes routes httpsEnabled = .ok mux)
    (hmem : (path, Value.string target) ∈ routes)
    (hpath : strings.HasPrefix path (go "#") = false)
    (hparse : url.Parse target = .ok u)
    (hfilter : ¬ (u.Scheme = go "https" ∧ httpsEnabled = false)) :
    routeEntry httpsEnabled path (.string target) = .ok (.bind path u.Scheme u.Host) ∧
    (NewReverseProxy u.Scheme u.Host).target = { Scheme := u.Scheme, Host := u.Host } ∧
    mux.m.lookup path = some ⟨Register (NewReverseProxy u.Scheme u.Host), path⟩ ∧
    mux.m.filter (fun kv => decide (kv.1 = path)) =
      [(path, ⟨Register (NewReverseProxy u.Scheme u.Host), path⟩)] ∧
    (bindings mux).filter (fun b => decide (b.pattern = path)) =
      [⟨path, u.Scheme, u.Host⟩] := by
  have hentry : routeEntry httpsEnabled path (.string target) =
      .ok (.bind path u.Scheme u.Host) := by
    simp only [routeEntry, hpath, hparse]
    simp [hfilter]
  have hl := lookup_bound httpsEnabled routes mux (path, .string target) _ _ hbuild hmem hentry
  have hf := filter_key_of_nodup mux.m path _ (buildRoutes_nodup _ _ _ hbuild)
    (mem_of_lookup _ _ _ hl)
  refine ⟨hentry, rfl, hl, hf, ?_⟩
  unfold bindings
  rw [List.filter_map]
  have : ((fun b : Binding => decide (b.pattern = path)) ∘
      fun kv : GoString × http.muxEntry HandlerFunc =>
        (⟨kv.1, kv.2.h.p.target.Scheme, kv.2.h.p.target.Host⟩ : Binding)) =
      fun kv => decide (kv.1 = path) := rfl
  rw [this, hf]
  rfl

/-- Witness of C4 amended: a target with user, path, query and fragment, next to
the four scenarios: the Binding at `/full` is `(http, upstream1:9000)`. -/
theorem passing_entry_bound_to_own_scheme_and_host_witness :
    routeEntry false (go "/full") (.string fullTarget) =
      .ok (.bind (go "/full") (go "http") (go "upstream1:9000")) ∧
    (NewReverseProxy (go "http") (go "upstream1:9000")).target =
      { Scheme := go "http", Host := go "upstream1:9000" } ∧
    muxFull.m.lookup (go "/full") = some ⟨proxyTo "http" "upstream1:9000", go "/full"⟩ ∧
    muxFull.m.filter (fun kv => decide (kv.1 = go "/full")) =
      [(go "/full", ⟨proxyTo "http" "upstream1:9000", go "/full"⟩)] ∧
    (bindings muxFull).filter (fun b => decide (b.pattern = go "/full")) =
      [⟨go "/full", go "http", go "upstream1:9000"⟩] :=
  passing_entry_bound_to_own_scheme_and_host (routesABCD ++ [(go "/full", .string fullTarget)])
    false muxFull (go "/full") fullTarget
    { Scheme := go "http", User := some ⟨go "user", go "pw", true⟩, Host := go "upstream1:9000",
      Path := go "/base/path", RawQuery := go "x=1", Fragment := go "frag" }
    (by decide) (by decide) (by decide) (by decide) (by decide)

/-- C5: the targets `""`, `localhost`, `/only/a/path` and `localhost:9000` are not
absolute URLs; `url.Parse` returns no error for them, the loop does not skip them
and registers a handler for each, whose upstream has an empty host and, but for the
last, an empty scheme. -/
theorem relative_targets_are_bound :
    ([[], go "localhost", go "/only/a/path", go "localhost:9000"].map fun target =>
      (url.Parse target).map fun u : url.URL => (u.Scheme, u.Host)) =
      [.ok ([], []), .ok ([], []), .ok ([], []), .ok (go "localhost", [])] ∧
    (buildRoutes routesRelative false).map bindings =
      .ok [⟨go "/e", [], []⟩, ⟨go "/x", [], []⟩, ⟨go "/y", [], []⟩,
           ⟨go "/z", go "localhost", []⟩] := by
  decide

/-- Every Binding of a table comes from an entry of the configuration whose prefix
does not start with `#` and whose target is a string that `url.Parse` returns
without error; the Binding holds the scheme and the host of the parsed URL. -/
theorem binding_comes_from_parsed_entry (routes : RouteConfig) (httpsEnabled : Bool)
    (mux : Mux) (b : Binding)
    (hbuild : buildRoutes routes httpsEnabled = .ok mux)
    (hb : b ∈ bindings mux) :
    strings.HasPrefix b.pattern (go "#") = false ∧
    ∃ target u, (b.pattern, Value.string target) ∈ routes ∧ url.Parse target = .ok u ∧
      b.scheme = u.Scheme ∧ b.host = u.Host := by
  obtain ⟨kv, hkv, rfl⟩ := List.mem_map.1 hb
  rw [buildRoutes_m _ _ _ hbuild] at hkv
  obtain ⟨e, he, hbe⟩ := List.mem_filterMap.1 hkv
  obtain ⟨s, ho, hr, rfl⟩ := boundEntry_eq_some _ _ _ hbe
  obtain ⟨-, hc, target, u, ht, hp, -, hs, hh⟩ := routeEntry_bind _ _ _ _ _ _ hr
  refine ⟨hc, target, u, ?_, hp, ?_, ?_⟩
  · rw [← ht]; exact he
  · simpa [Register, NewReverseProxy, httputil.NewSingleHostReverseProxy] using hs
  · simpa [Register, NewReverseProxy, httputil.NewSingleHostReverseProxy] using hh

/-- C9, counterexample: an entry with the empty key and a valid target passes the
three filters, and `http.HandleFunc` panics on the empty pattern: the loop aborts
the process. -/
theorem empty_key_panics :
    buildRoutes routesEmptyKey false = .error (.handle .invalidPattern) ∧
    buildRoutes routesEmptyKey true = .error (.handle .invalidPattern) := by
  constructor <;> decide

theorem bound_keys_sublist (httpsEnabled : Bool) (routes : RouteConfig) :
    ((routes.filterMap (boundEntry httpsEnabled)).map Prod.fst).Sublist
      (routes.map Prod.fst) := by
  induction routes with
  | nil => simp
  | cons a routes ih =>
    cases hb : boundEntry httpsEnabled a with
    | none =>
      simp only [List.filterMap_cons, hb, List.map_cons]
      exact List.Sublist.cons _ ih
    | some b =>
      obtain ⟨s, ho, -, rfl⟩ := boundEntry_eq_some _ _ _ hb
      simp only [List.filterMap_cons, hb, List.map_cons]
      exact List.Sublist.cons₂ _ ih

/-- C9, amended: for a configuration (a map: its keys are pairwise different)
whose targets are strings and in which every key that passes the three filters is
a plain path (it begins with `/` and holds no space, tab, `{` or `%`), and for
every value of `httpsEnabled`, the loop processes every entry and completes: each
entry ends up skipped, its key unregistered, or registered at its key. -/
theorem build_completes_on_plain_keys (routes : RouteConfig) (httpsEnabled : Bool)
    (hkeys : (routes.map Prod.fst).Nodup)
    (hstrings : ∀ e ∈ routes, ∃ s, e.2 = Value.string s)
    (hplain : ∀ e ∈ routes, routeEntry httpsEnabled e.1 e.2 ≠ .ok .skip →
      plainPath e.1 = true) :
    ∃ mux, buildRoutes routes httpsEnabled = .ok mux ∧
      ∀ e ∈ routes,
        (routeEntry httpsEnabled e.1 e.2 = .ok .skip ∧ mux.m.lookup e.1 = none) ∨
        ∃ u : url.URL, routeEntry httpsEnabled e.1 e.2 = .ok (.bind e.1 u.Scheme u.Host) ∧
          mux.m.lookup e.1 = some ⟨Register (NewReverseProxy u.Scheme u.Host), e.1⟩ := by
  have hok : ∀ e ∈ routes, ∃ o, routeEntry httpsEnabled e.1 e.2 = .ok o := by
    intro e he
    obtain ⟨s, hs⟩ := hstrings e he
    unfold routeEntry
    split
    · exact ⟨_, rfl⟩
    · rw [hs]
      simp only
      split
      · exact ⟨_, rfl⟩
      · split <;> exact ⟨_, rfl⟩
  have hne : ∀ b ∈ routes.filterMap (boundEntry httpsEnabled), b.1 ≠ [] := by
    intro b hb hb0
    obtain ⟨e, he, hbe⟩ := List.mem_filterMap.1 hb
    obtain ⟨s, ho, hr, rfl⟩ := boundEntry_eq_some _ _ _ hbe
    have he0 : e.1 = [] := hb0
    have hp := hplain e he (by rw [hr]; intro h; cases h)
    rw [he0] at hp
    cases hp
  obtain ⟨mux, hmux⟩ := (buildRoutes_ok_iff httpsEnabled routes).2
    ⟨hok, hne, (bound_keys_sublist httpsEnabled routes).nodup hkeys⟩
  refine ⟨mux, hmux, ?_⟩
  intro e he
  obtain ⟨o, ho⟩ := hok e he
  cases o with
  | skip => exact Or.inl ⟨ho, lookup_skipped _ _ _ _ hkeys hmux he ho⟩
  | bind p s h =>
    obtain ⟨rfl, -, target, u, -, -, -, rfl, rfl⟩ := routeEntry_bind _ _ _ _ _ _ ho
    exact Or.inr ⟨u, ho, lookup_bound _ _ _ _ _ _ hmux he ho⟩

/-- Witness of C9 amended: the four scenarios with, in addition, an entry of empty
key whose target does not parse, HTTPS enabled: `/a` and `/b` are registered, the
other three entries are skipped. -/
theorem build_completes_on_plain_keys_witness :
    ∃ mux, buildRoutes routesSkippedEmptyKey true = .ok mux ∧
      ∀ e ∈ routesSkippedEmptyKey,
        (routeEntry true e.1 e.2 = .ok .skip ∧ mux.m.lookup e.1 = none) ∨
        ∃ u : url.URL, routeEntry true e.1 e.2 = .ok (.bind e.1 u.Scheme u.Host) ∧
          mux.m.lookup e.1 = some ⟨Register (NewReverseProxy u.Scheme u.Host), e.1⟩ :=
  build_completes_on_plain_keys routesSkippedEmptyKey true (by decide)
    (by
      intro e he
      have he2 : e ∈ [(go "/a", Value.string (go "http://upstream1:9000")),
          (go "/b", Value.string (go "https://upstream2:9443")),
          (go "#/c", Value.string (go "http://upstream3:9000")),
          (go "/d", Value.string (go "::not a url::")),
          (([] : GoString), Value.string (go "::not a url::"))] := he
      simp only [List.mem_cons, List.mem_singleton, List.not_mem_nil, or_false] at he2
      rcases he2 with rfl | rfl | rfl | rfl | rfl <;> exact ⟨_, rfl⟩)
    (by decide)

theorem run_cons (t : Thread) (schedule : List Thread) (p : Process) :
    run (t :: schedule) p = run schedule (step t p) := rfl

theorem run_mux (schedule : List Thread) (p : Process) : (run schedule p).mux = p.mux := by
  induction schedule generalizing p with
  | nil => rfl
  | cons t ts ih =>
    rw [run_cons, ih]
    cases t with
    | main => rfl
    | goroutine =>
      rcases hg : p.goroutineAt with _ | pc
      · simp [step, hg]
      · cases pc <;> simp [step, hg]

/-- The transport after a schedule: the assignment of line 89 happens at the first
step of a goroutine that was started, and nothing else writes the field. -/
theorem run_TLSClientConfig (schedule : List Thread) (p : Process) :
    (run schedule p).TLSClientConfig =
      if p.goroutineAt = some .beforeAssignment ∧ Thread.goroutine ∈ schedule then
        some { InsecureSkipVerify := true }
      else p.TLSClientConfig := by
  induction schedule generalizing p with
  | nil => simp [run]
  | cons t ts ih =>
    rw [run_cons, ih]
    cases t with
    | main => simp [step]
    | goroutine =>
      rcases hg : p.goroutineAt with _ | pc
      · simp [step, hg]
      · cases pc <;> simp [step, hg]

/-- The HTTPS server is entered only after the assignment of line 89. -/
theorem run_serving (schedule : List Thread) (p : Process)
    (hp : p.goroutineAt = some .beforeAssignment ∨ p.goroutineAt = none ∨
      p.TLSClientConfig = some { InsecureSkipVerify := true })
    (hs : (run schedule p).goroutineAt = some .serving) :
    (run schedule p).TLSClientConfig = some { InsecureSkipVerify := true } := by
  induction schedule generalizing p with
  | nil =>
    rcases hp with h | h | h
    · rw [show run [] p = p from rfl, h] at hs; cases hs
    · rw [show run [] p = p from rfl, h] at hs; cases hs
    · exact h
  | cons t ts ih =>
    rw [run_cons] at hs ⊢
    apply ih _ _ hs
    cases t with
    | main => exact hp
    | goroutine =>
      rcases hg : p.goroutineAt with _ | pc
      · simp [step, hg]
      · cases pc
        · simp [step, hg]
        · rcases hp with h2 | h2 | h2
          · rw [hg] at h2; cases h2
          · rw [hg] at h2; cases h2
          · simp [step, hg, h2]
        · rcases hp with h2 | h2 | h2
          · rw [hg] at h2; cases h2
          · rw [hg] at h2; cases h2
          · simp [step, hg, h2]

/-- C10, counterexample: HTTPS is enabled and the scheduler runs `main` first: the
HTTP server takes requests while the `TLSClientConfig` of the transport is still
nil, the default that validates the upstream certificate. -/
theorem http_server_can_serve_before_the_assignment :
    (main routesB true (go ":80") (go ":8080")).map (fun p =>
      ((run [.main] p).mainAt, (run [.main] p).goroutineAt,
        skipsVerification (run [.main] p).TLSClientConfig)) =
      .ok (.serving, some .beforeAssignment, false) := by
  decide

/-- C10, amended: when the route loop completes, `main` goes on with the transport
at its default and, if and only if `httpsEnabled` is true, with a goroutine; in
every order of the steps of `main` and of the goroutine, the `TLSClientConfig` of
the default transport is `{InsecureSkipVerify: true}` exactly when `httpsEnabled`
is true and the goroutine has made its first step, and nil (the validating default)
otherwise: it is never insecure with HTTPS disabled, whatever `routes` holds, and
the HTTPS server is never entered before the transport is insecure. -/
theorem insecure_upstream_tls_set_by_https_goroutine (routes : RouteConfig)
    (httpsEnabled : Bool) (httpAddress httpsAddress : GoString) (mux : Mux)
    (schedule : List Thread)
    (hbuild : buildRoutes routes httpsEnabled = .ok mux) :
    ∃ p, main routes httpsEnabled httpAddress httpsAddress = .ok p ∧
      p.mux = mux ∧ p.TLSClientConfig = none ∧
      p.goroutineAt = (if httpsEnabled then some .beforeAssignment else none) ∧
      (run schedule p).mux = mux ∧
      (run schedule p).TLSClientConfig =
        (if httpsEnabled = true ∧ Thread.goroutine ∈ schedule then
          some { InsecureSkipVerify := true }
         else none) ∧
      (skipsVerification (run schedule p).TLSClientConfig = true → httpsEnabled = true) ∧
      ((run schedule p).goroutineAt = some .serving →
        skipsVerification (run schedule p).TLSClientConfig = true) := by
  refine ⟨Process.mk mux none .beforeListenAndServe
      (if httpsEnabled then some .beforeAssignment else none) httpAddress httpsAddress,
    by simp only [main, hbuild], rfl, rfl, rfl, ?_, ?_, ?_, ?_⟩
  · rw [run_mux]
  · rw [run_TLSClientConfig]
    cases httpsEnabled <;> simp
  · rw [run_TLSClientConfig]
    cases httpsEnabled <;> simp [skipsVerification]
  · intro hs
    rw [run_serving _ _ (by cases httpsEnabled <;> simp) hs]
    rfl

/-- Witness of C10 amended: scenario 2 with HTTPS enabled, the goroutine scheduled
first: the transport skips the verification and both servers are entered. -/
theorem insecure_upstream_tls_set_by_https_goroutine_witness :
    ∃ p, main routesB true (go ":80") (go ":8080") = .ok p ∧
      p.mux = muxB ∧ p.TLSClientConfig = none ∧
      p.goroutineAt = (if true then some .beforeAssignment else none) ∧
      (run [.goroutine, .main, .goroutine] p).mux = muxB ∧
      (run [.goroutine, .main, .goroutine] p).TLSClientConfig =
        (if true = true ∧ Thread.goroutine ∈ [Thread.goroutine, .main, .goroutine] then
          some { InsecureSkipVerify := true }
         else none) ∧
      (skipsVerification (run [.goroutine, .main, .goroutine] p).TLSClientConfig = true →
        true = true) ∧
      ((run [.goroutine, .main, .goroutine] p).goroutineAt = some .serving →
        skipsVerification (run [.goroutine, .main, .goroutine] p).TLSClientConfig = true) :=
  insecure_upstream_tls_set_by_https_goroutine routesB true (go ":80") (go ":8080") muxB
    [.goroutine, .main, .goroutine] (by decide)

/-! ## The claims about forwarding -/

theorem hasPrefix_slash_iff (s : GoString) :
    strings.HasPrefix s (go "/") = true ↔ ∃ t, s = ch '/' :: t := by
  have hg : go "/" = [47] := by decide
  have hc : ch '/' = 47 := by decide
  rw [hc, strings.HasPrefix, hg]
  cases s with
  | nil => simp [List.isPrefixOf]
  | cons c t =>
    simp only [List.isPrefixOf, Bool.and_true, List.cons.injEq]
    constructor
    · intro h
      have : (47 : Nat) = c := by simpa using h
      exact ⟨t, this.symm, rfl⟩
    · rintro ⟨t2, h, -⟩
      simp [h]

theorem escape_slash (t : GoString) :
    strings.HasPrefix (url.escape (ch '/' :: t) .encodePath) (go "/") = true := by
  unfold url.escape
  split
  · exact (hasPrefix_slash_iff _).2 ⟨t, rfl⟩
  · have h : url.shouldEscape (ch '/') .encodePath = false := by decide
    simp only [List.map_cons, h, List.flatten_cons, Bool.false_eq_true, if_false,
      List.singleton_append]
    exact (hasPrefix_slash_iff _).2 ⟨_, rfl⟩

theorem escapedPath_slash (u : url.URL)
    (hpath : strings.HasPrefix u.Path (go "/") = true)
    (hraw : u.RawPath = [] ∨ strings.HasPrefix u.RawPath (go "/") = true) :
    strings.HasPrefix (url.EscapedPath u) (go "/") = true := by
  obtain ⟨t, ht⟩ := (hasPrefix_slash_iff _).1 hpath
  unfold url.EscapedPath
  split
  · rename_i h
    rcases hraw with h0 | h0
    · exact absurd h0 h.1
    · exact h0
  · split
    · rename_i h
      have hg : go "*" = [42] := by decide
      have hc : ch '/' = 47 := by decide
      rw [ht, hg, hc] at h
      injection h with h1 h2
      exact absurd h1 (by decide)
    · rw [ht]
      exact escape_slash t

theorem joinURLPath_empty_target (scheme host : GoString) (b : url.URL)
    (hpath : strings.HasPrefix b.Path (go "/") = true)
    (hraw : b.RawPath = [] ∨ strings.HasPrefix b.RawPath (go "/") = true) :
    (httputil.joinURLPath { Scheme := scheme, Host := host } b).1 = b.Path := by
  have hsuf : ∀ s, strings.HasPrefix s (go "/") = true →
      (if (strings.HasSuffix [] (go "/") && strings.HasPrefix s (go "/")) = true then
        (([] : GoString) ++ b.Path.drop 1)
       else if (!strings.HasSuffix [] (go "/") && !strings.HasPrefix s (go "/")) = true then
        [] ++ go "/" ++ b.Path
       else [] ++ b.Path) = b.Path := by
    intro s hs
    have h0 : strings.HasSuffix [] (go "/") = false := by decide
    simp [h0, hs]
  unfold httputil.joinURLPath
  split
  · simpa [httputil.singleJoiningSlash] using hsuf b.Path hpath
  · have he : url.EscapedPath { Scheme := scheme, Host := host } = [] := by
      simp [url.EscapedPath, url.escape]
    have h0 : strings.HasSuffix [] (go "/") = false := by decide
    have h1 := escapedPath_slash b hpath hraw
    simp [he, h0, h1]

theorem joinURLPath_empty_target_raw (scheme host : GoString) (b : url.URL)
    (hpath : strings.HasPrefix b.Path (go "/") = true)
    (hraw : b.RawPath = [] ∨ strings.HasPrefix b.RawPath (go "/") = true) :
    (httputil.joinURLPath { Scheme := scheme, Host := host } b).2 =
      if b.RawPath = [] then [] else url.EscapedPath b := by
  unfold httputil.joinURLPath
  by_cases hr : b.RawPath = []
  · simp [hr]
  · have he : url.EscapedPath { Scheme := scheme, Host := host } = [] := by
      simp [url.EscapedPath, url.escape]
    have h0 : strings.HasSuffix [] (go "/") = false := by decide
    have h1 := escapedPath_slash b hpath hraw
    simp [hr, he, h0, h1]

/-- The escaped path of a URL is its own valid raw path: a URL with the same path
and that escaped path as raw path has the same escaped path. -/
theorem escapedPath_idem (u v : url.URL) (hp : v.Path = u.Path)
    (hr : v.RawPath = [] ∧ u.RawPath = [] ∨ v.RawPath = url.EscapedPath u) :
    url.EscapedPath v = url.EscapedPath u := by
  rcases hr with ⟨h1, h2⟩ | hr
  · simp only [url.EscapedPath, h1, h2, hp]
  · by_cases hc : u.RawPath ≠ [] ∧ url.validEncoded u.RawPath .encodePath = true ∧
        url.unescape u.RawPath .encodePath = .ok u.Path
    · have hu : url.EscapedPath u = u.RawPath := by
        unfold url.EscapedPath
        rw [if_pos hc]
      rw [hu] at hr ⊢
      unfold url.EscapedPath
      rw [hr, hp, if_pos hc]
    · have hu : url.EscapedPath u =
          if u.Path = go "*" then go "*" else url.escape u.Path .encodePath := by
        unfold url.EscapedPath
        rw [if_neg hc]
      have hv : url.EscapedPath v =
          if v.RawPath ≠ [] ∧ url.validEncoded v.RawPath .encodePath = true ∧
              url.unescape v.RawPath .encodePath = .ok v.Path then v.RawPath
          else if v.Path = go "*" then go "*" else url.escape v.Path .encodePath := rfl
      rw [hv, hp]
      split
      · rw [hr]
      · rw [hu]

/-- The `Director` of a proxy built by `NewReverseProxy`, on a request whose path
begins with `/`: only the scheme and the host of the URL change, the raw path
becomes the escaped path of the request. -/
theorem outreq_eq (scheme host : GoString) (r : http.Request)
    (hpath : strings.HasPrefix r.URL.Path (go "/") = true)
    (hraw : r.URL.RawPath = [] ∨ strings.HasPrefix r.URL.RawPath (go "/") = true) :
    (NewReverseProxy scheme host).outreq r =
      { r with URL := { r.URL with
          Scheme := scheme
          Host := host
          RawPath := if r.URL.RawPath = [] then [] else url.EscapedPath r.URL } } := by
  have h1 := joinURLPath_empty_target scheme host r.URL hpath hraw
  have h2 := joinURLPath_empty_target_raw scheme host r.URL hpath hraw
  simp only [httputil.ReverseProxy.outreq, httputil.ReverseProxy.Director,
    httputil.rewriteRequestURL, NewReverseProxy, httputil.NewSingleHostReverseProxy, h1, h2,
    true_or, if_true, List.nil_append]

theorem cleanLoop_rooted : ∀ (fuel : Nat) (rest out : GoString) (dotdot : Nat),
    out.head? = some (ch '/') → 1 ≤ dotdot →
    (path.cleanLoop true fuel rest out dotdot).head? = some (ch '/') := by
  have hback : ∀ (out : GoString) (dotdot w : Nat), dotdot ≤ w →
      dotdot ≤ path.backtrack out dotdot w := by
    intro out dotdot w
    induction w with
    | zero => intro h; simpa [path.backtrack] using h
    | succ w ih =>
      intro h
      unfold path.backtrack
      split
      · rename_i hc
        exact ih (by omega)
      · exact h
  intro fuel
  induction fuel with
  | zero => intro rest out dotdot h _; exact h
  | succ n ih =>
    intro rest out dotdot h hd
    cases rest with
    | nil => simpa [path.cleanLoop] using h
    | cons c rest1 =>
      have hne : out ≠ [] := by intro h0; rw [h0] at h; cases h
      have happ : ∀ x : GoString, (out ++ x).head? = some (ch '/') := by
        intro x
        cases out with
        | nil => exact absurd rfl hne
        | cons a t => simpa using h
      have htake : out.length > dotdot →
          (out.take (path.backtrack out dotdot (out.length - 1))).head? = some (ch '/') := by
        intro hl
        have := hback out dotdot (out.length - 1) (by omega)
        rw [List.head?_take, if_neg (by omega), h]
      rw [path.cleanLoop]
      split_ifs <;> first
        | contradiction
        | exact ih _ _ _ h hd
        | exact ih _ _ _ (happ _) hd
        | exact ih _ _ _ (by rw [List.append_assoc]; exact happ _) hd
        | exact ih _ _ _ (htake (by assumption)) hd

theorem Clean_rooted (p : GoString) (h : p.head? = some (ch '/')) :
    (path.Clean p).head? = some (ch '/') := by
  have hne : p ≠ [] := by intro h0; rw [h0] at h; cases h
  have hl := cleanLoop_rooted p.length (p.drop 1) [ch '/'] 1 rfl (Nat.le_refl 1)
  unfold path.Clean
  simp only [hne, if_false, h, decide_True, if_true]
  split
  · rename_i h0
    rw [h0] at hl
    cases hl
  · exact hl

/-- The canonical path `cleanPath` returns begins with `/`. -/
theorem cleanPath_rooted (p : GoString) : (http.cleanPath p).head? = some (ch '/') := by
  have key : ∀ q : GoString, q.head? = some (ch '/') →
      (if q.getLast? = some (ch '/') ∧ path.Clean q ≠ go "/" then
        if q.length = (path.Clean q).length + 1 ∧ strings.HasPrefix q (path.Clean q) = true
          then q
        else path.Clean q ++ go "/"
       else path.Clean q).head? = some (ch '/') := by
    intro q hq
    have hc := Clean_rooted q hq
    have hne : path.Clean q ≠ [] := by
      intro h1; rw [h1] at hc; cases hc
    split_ifs
    · exact hq
    · rw [List.head?_append_of_ne_nil _ hne]; exact hc
    · exact hc
  unfold http.cleanPath
  by_cases h0 : p = []
  · simp only [h0, if_true]; decide
  · by_cases hh : p.head? = some (ch '/')
    · simp only [h0, if_false, hh, ne_eq, not_true_eq_false]
      exact key p hh
    · simp only [h0, if_false, hh, ne_eq, not_false_eq_true, if_true]
      exact key _ rfl

/-- A request that is not a CONNECT gets a registered handler only if its path is
in canonical form, which begins with `/`. -/
theorem registered_path_rooted {H : Type} (mux : http.ServeMux H) (r : http.Request)
    (h : H) (pattern : GoString)
    (hreach : mux.Handler r = (.registered h, pattern))
    (hmethod : r.Method ≠ go "CONNECT") :
    strings.HasPrefix r.URL.Path (go "/") = true := by
  have hclean : http.cleanPath r.URL.Path = r.URL.Path := by
    by_contra hc
    unfold http.ServeMux.Handler at hreach
    simp only [hmethod, if_false] at hreach
    split at hreach
    · cases hreach
    · injection hreach with h1 h2
      cases h1
  have hr := cleanPath_rooted r.URL.Path
  rw [hclean] at hr
  cases hp : r.URL.Path with
  | nil => rw [hp] at hr; cases hr
  | cons c t =>
    rw [hp] at hr
    simp only [List.head?_cons, Option.some.injEq] at hr
    rw [hr]
    exact (hasPrefix_slash_iff _).2 ⟨t, rfl⟩

/-! ## The sorted slice of the `ServeMux` -/

/-- The binary search of `sort.Search` on a predicate that is false then true:
everything below the result is false, everything from the result on is true. -/
theorem searchLoop_spec (f : Nat → Bool)
    (hmono : ∀ a b, a ≤ b → f a = true → f b = true) :
    ∀ fuel i j, j - i ≤ fuel → i ≤ j → (∀ k, k < i → f k = false) →
      (∀ k, j ≤ k → f k = true) →
      (∀ k, k < sort.searchLoop f fuel i j → f k = false) ∧
      (∀ k, sort.searchLoop f fuel i j ≤ k → f k = true) := by
  intro fuel
  induction fuel with
  | zero =>
    intro i j h1 h2 h3 h4
    have : i = j := by omega
    subst this
    exact ⟨h3, h4⟩
  | succ fuel ih =>
    intro i j h1 h2 h3 h4
    unfold sort.searchLoop
    by_cases hij : i < j
    · simp only [hij, if_true]
      cases hf : f ((i + j) / 2) with
      | false =>
        simp only [Bool.not_false, if_true]
        apply ih _ _ (by omega) (by omega) _ h4
        intro k hk
        cases hk2 : f k with
        | false => rfl
        | true =>
          have := hmono k ((i + j) / 2) (by omega) hk2
          rw [hf] at this
          cases this
      | true =>
        simp only [Bool.not_true, Bool.false_eq_true, if_false]
        apply ih _ _ (by omega) (by omega) h3
        intro k hk
        exact hmono _ _ hk hf
    · simp only [hij, if_false]
      have : i = j := by omega
      subst this
      exact ⟨h3, h4⟩

theorem appendSorted_eq {H : Type} (es : List (http.muxEntry H)) (e : http.muxEntry H) :
    ∃ i, http.appendSorted es e = es.take i ++ e :: es.drop i ∧
      i = sort.Search es.length (fun i =>
        match es.get? i with
        | some x => decide (x.pattern.length < e.pattern.length)
        | none => true) := by
  refine ⟨_, ?_, rfl⟩
  unfold http.appendSorted
  simp only
  split
  · rename_i h
    rw [h]
    simp
  · rfl

theorem appendSorted_perm {H : Type} (es : List (http.muxEntry H)) (e : http.muxEntry H) :
    (http.appendSorted es e).Perm (es ++ [e]) := by
  obtain ⟨i, h, -⟩ := appendSorted_eq es e
  rw [h]
  have h1 : (es.take i ++ e :: es.drop i).Perm (e :: (es.take i ++ es.drop i)) :=
    List.perm_middle
  rw [List.take_append_drop] at h1
  exact h1.trans (List.perm_append_singleton e es).symm

/-- Insertion by `appendSorted` keeps the slice sorted from longest to shortest
pattern. -/
theorem appendSorted_sorted {H : Type} (es : List (http.muxEntry H)) (e : http.muxEntry H)
    (hs : es.Pairwise fun a b => b.pattern.length ≤ a.pattern.length) :
    (http.appendSorted es e).Pairwise fun a b => b.pattern.length ≤ a.pattern.length := by
  obtain ⟨i, h, hi⟩ := appendSorted_eq es e
  rw [h]
  have hmono : ∀ a b, a ≤ b →
      (match es.get? a with
        | some x => decide (x.pattern.length < e.pattern.length)
        | none => true) = true →
      (match es.get? b with
        | some x => decide (x.pattern.length < e.pattern.length)
        | none => true) = true := by
    intro a b hab ha
    cases hb : es.get? b with
    | none => rfl
    | some y =>
      simp only
      cases ha2 : es.get? a with
      | none =>
        rw [List.get?_eq_getElem?] at ha2 hb
        have h1 := List.getElem?_eq_none_iff.1 ha2
        have h2 : b < es.length := by
          by_contra hc
          rw [List.getElem?_eq_none (by omega)] at hb
          cases hb
        omega
      | some x =>
        rw [ha2] at ha
        simp only [decide_eq_true_eq] at ha ⊢
        rcases Nat.lt_or_ge a b with hlt | hge
        · rw [List.get?_eq_getElem?] at ha2 hb
          have hrel := List.pairwise_iff_getElem.1 hs a b
            (by
              by_contra hc
              rw [List.getElem?_eq_none (by omega)] at ha2
              cases ha2)
            (by
              by_contra hc
              rw [List.getElem?_eq_none (by omega)] at hb
              cases hb) hlt
          rw [List.getElem?_eq_some_iff] at ha2 hb
          obtain ⟨_, ha3⟩ := ha2
          obtain ⟨_, hb3⟩ := hb
          rw [ha3, hb3] at hrel
          omega
        · have : a = b := by omega
          subst this
          rw [ha2] at hb
          injection hb with hb
          subst hb
          exact ha
  have hspec := searchLoop_spec _ hmono es.length 0 es.length (by omega) (by omega)
    (by intro k hk; omega)
    (by
      intro k hk
      rw [List.get?_eq_getElem?, List.getElem?_eq_none hk])
  have hi2 : sort.searchLoop (fun i =>
        match es.get? i with
        | some x => decide (x.pattern.length < e.pattern.length)
        | none => true) es.length 0 es.length = i := hi.symm
  rw [hi2] at hspec
  obtain ⟨hlow, hhigh⟩ := hspec
  have htake : ∀ a ∈ es.take i, e.pattern.length ≤ a.pattern.length := by
    intro a ha
    obtain ⟨k, hk⟩ := List.mem_iff_getElem?.1 ha
    rw [List.getElem?_take] at hk
    split at hk
    · rename_i hlt
      have := hlow k hlt
      rw [List.get?_eq_getElem?, hk] at this
      simp only [decide_eq_false_iff_not] at this
      omega
    · cases hk
  have hdrop : ∀ b ∈ es.drop i, b.pattern.length ≤ e.pattern.length := by
    intro b hb
    obtain ⟨k, hk⟩ := List.mem_iff_getElem?.1 hb
    rw [List.getElem?_drop] at hk
    have := hhigh (i + k) (by omega)
    rw [List.get?_eq_getElem?, hk] at this
    simp only [decide_eq_true_eq] at this
    omega
  have hall : (es.take i ++ es.drop i).Pairwise
      fun a b => b.pattern.length ≤ a.pattern.length := by
    rw [List.take_append_drop]; exact hs
  rw [List.pairwise_append] at hall ⊢
  refine ⟨hall.1, ?_, ?_⟩
  · exact List.pairwise_cons.2 ⟨hdrop, hall.2.1⟩
  · intro a ha b hb
    rcases List.mem_cons.1 hb with rfl | hb
    · exact htake a ha
    · exact hall.2.2 a ha b hb


theorem MuxInv_empty {H : Type} : MuxInv ({} : http.ServeMux H) :=
  ⟨by simp, by simp, by simp, by simp, by simp⟩

/-- `Handle` keeps the invariant of the `ServeMux`. -/
theorem Handle_inv {H : Type} (mux mux2 : http.ServeMux H) (pattern : GoString) (hd : H)
    (hinv : MuxInv mux) (h : mux.Handle pattern hd = .ok mux2) : MuxInv mux2 := by
  rw [Handle_ok_iff] at h
  obtain ⟨hne, hlk, rfl⟩ := h
  have habs := (lookup_eq_none_iff _ _).1 hlk
  refine ⟨?_, ?_, ?_, ?_, ?_⟩
  · intro kv hkv
    rcases List.mem_append.1 hkv with h1 | h1
    · exact hinv.keys kv h1
    · simp only [List.mem_singleton] at h1
      rw [h1]
  · simp only [List.map_append, List.map_cons, List.map_nil]
    rw [List.nodup_append]
    refine ⟨hinv.nodup, by simp, ?_⟩
    intro a ha hb
    simp only [List.mem_singleton] at hb
    exact habs (hb ▸ ha)
  · simp only [List.map_append, List.map_cons, List.map_nil, List.filter_append]
    by_cases hl : pattern.getLast? = some (ch '/')
    · simp only [hl, if_true]
      have : List.filter (fun e : http.muxEntry H => decide (e.pattern.getLast? = some (ch '/')))
          [⟨hd, pattern⟩] = [⟨hd, pattern⟩] := by
        simp [List.filter_cons, hl]
      rw [this]
      exact (appendSorted_perm mux.es ⟨hd, pattern⟩).trans (List.Perm.append_right _ hinv.es_perm)
    · simp only [hl, if_false]
      have : List.filter (fun e : http.muxEntry H => decide (e.pattern.getLast? = some (ch '/')))
          [⟨hd, pattern⟩] = [] := by
        simp [List.filter_cons, hl]
      rw [this, List.append_nil]
      exact hinv.es_perm
  · by_cases hl : pattern.getLast? = some (ch '/')
    · simp only [hl, if_true]
      exact appendSorted_sorted _ _ hinv.es_sorted
    · simp only [hl, if_false]
      exact hinv.es_sorted
  · simp only [List.any_append, List.any_cons, List.any_nil, Bool.or_false]
    rw [← hinv.hosts]
    by_cases hh : pattern.head? = some (ch '/')
    · simp [hh]
    · simp [hh]

theorem routeLoop_inv (httpsEnabled : Bool) (routes : RouteConfig) (mux mux2 : Mux)
    (hinv : MuxInv mux) (h : routeLoop httpsEnabled mux routes = .ok mux2) : MuxInv mux2 := by
  induction routes generalizing mux with
  | nil =>
    simp only [routeLoop] at h
    injection h with h
    rw [← h]
    exact hinv
  | cons a routes ih =>
    simp only [routeLoop] at h
    cases hs : routeStep httpsEnabled mux a with
    | error e => simp [hs] at h
    | ok m3 =>
      simp only [hs] at h
      apply ih m3 _ h
      rcases routeStep_ok _ _ _ _ hs with ⟨-, rfl⟩ | ⟨s, ho, -, hh⟩
      · exact hinv
      · exact Handle_inv _ _ _ _ hinv hh

/-- The table the route loop builds satisfies the invariant of the `ServeMux`. -/
theorem buildRoutes_inv (httpsEnabled : Bool) (routes : RouteConfig) (mux : Mux)
    (h : buildRoutes routes httpsEnabled = .ok mux) : MuxInv mux :=
  routeLoop_inv httpsEnabled routes {} mux MuxInv_empty h

theorem es_mem_iff {H : Type} (mux : http.ServeMux H) (hinv : MuxInv mux)
    (e : http.muxEntry H) :
    e ∈ mux.es ↔ (e.pattern, e) ∈ mux.m ∧ e.pattern.getLast? = some (ch '/') := by
  rw [hinv.es_perm.mem_iff, List.mem_filter, List.mem_map]
  simp only [decide_eq_true_eq]
  constructor
  · rintro ⟨⟨kv, hkv, rfl⟩, hl⟩
    refine ⟨?_, hl⟩
    rw [hinv.keys kv hkv]
    exact hkv
  · rintro ⟨hm, hl⟩
    exact ⟨⟨_, hm, rfl⟩, hl⟩

theorem lookup_eq_some_iff {V : Type} (m : List (GoString × V)) (k : GoString) (v : V)
    (hn : (m.map Prod.fst).Nodup) : m.lookup k = some v ↔ (k, v) ∈ m :=
  ⟨mem_of_lookup m k v, lookup_of_mem_nodup m k v hn⟩

theorem lookup_perm {V : Type} (m m2 : List (GoString × V)) (k : GoString)
    (hn : (m.map Prod.fst).Nodup) (hp : m.Perm m2) : m.lookup k = m2.lookup k := by
  have hn2 : (m2.map Prod.fst).Nodup := (hp.map Prod.fst).nodup_iff.1 hn
  cases h : m.lookup k with
  | none =>
    rw [lookup_eq_none_iff] at h
    symm
    rw [lookup_eq_none_iff]
    intro hc
    exact h ((hp.map Prod.fst).mem_iff.2 hc)
  | some v =>
    symm
    rw [lookup_eq_some_iff _ _ _ hn2]
    exact hp.mem_iff.1 (mem_of_lookup _ _ _ h)

/-- In a slice sorted from longest to shortest, the first entry with a property is
a longest one. -/
theorem find_sorted_longest {H : Type} (es : List (http.muxEntry H))
    (P : http.muxEntry H → Bool) (e : http.muxEntry H)
    (hs : es.Pairwise fun a b => b.pattern.length ≤ a.pattern.length)
    (hf : es.find? P = some e) :
    e ∈ es ∧ P e = true ∧ ∀ e2 ∈ es, P e2 = true → e2.pattern.length ≤ e.pattern.length := by
  induction es with
  | nil => simp at hf
  | cons a es ih =>
    rw [List.pairwise_cons] at hs
    rw [List.find?_cons] at hf
    cases hp : P a with
    | true =>
      simp only [hp] at hf
      injection hf with hf
      subst hf
      refine ⟨List.mem_cons_self _ _, hp, ?_⟩
      intro e2 he2 _
      rcases List.mem_cons.1 he2 with rfl | h
      · exact Nat.le_refl _
      · exact hs.1 e2 h
    | false =>
      simp only [hp] at hf
      obtain ⟨h1, h2, h3⟩ := ih hs.2 hf
      refine ⟨List.mem_cons_of_mem _ h1, h2, ?_⟩
      intro e2 he2 hp2
      rcases List.mem_cons.1 he2 with rfl | h
      · rw [hp] at hp2; cases hp2
      · exact h3 e2 h hp2

theorem isPrefixOf_same_length (a b s : GoString) (ha : a.isPrefixOf s = true)
    (hb : b.isPrefixOf s = true) (hl : a.length = b.length) : a = b := by
  rw [List.isPrefixOf_iff_prefix] at ha hb
  exact List.prefix_of_prefix_length_le ha hb (by omega) |>.eq_of_length hl


/-! ## Dispatch -/

theorem es_unique {H : Type} (mux : http.ServeMux H) (hinv : MuxInv mux)
    (a b : http.muxEntry H) (ha : a ∈ mux.es) (hb : b ∈ mux.es)
    (hp : a.pattern = b.pattern) : a = b := by
  have h1 := ((es_mem_iff mux hinv a).1 ha).1
  have h2 := ((es_mem_iff mux hinv b).1 hb).1
  rw [hp] at h1
  exact key_unique_of_nodup _ _ _ _ hinv.nodup h1 h2

/-- Two tables with the same entries pick the same entry of `es` for a path,
whatever the order `appendSorted` left patterns of equal length in. -/
theorem find_es_perm {H : Type} (mux mux2 : http.ServeMux H) (hinv : MuxInv mux)
    (hinv2 : MuxInv mux2) (hm : mux.m.Perm mux2.m) (path : GoString) :
    mux.es.find? (fun e => strings.HasPrefix path e.pattern) =
      mux2.es.find? (fun e => strings.HasPrefix path e.pattern) := by
  have hmem : ∀ e, e ∈ mux.es ↔ e ∈ mux2.es := by
    intro e
    rw [es_mem_iff mux hinv, es_mem_iff mux2 hinv2, hm.mem_iff]
  cases h1 : mux.es.find? (fun e => strings.HasPrefix path e.pattern) with
  | none =>
    cases h2 : mux2.es.find? (fun e => strings.HasPrefix path e.pattern) with
    | none => rfl
    | some e2 =>
      obtain ⟨h3, h4, -⟩ := find_sorted_longest _ _ _ hinv2.es_sorted h2
      rw [List.find?_eq_none] at h1
      exact absurd h4 (h1 e2 ((hmem e2).2 h3))
  | some e1 =>
    obtain ⟨h3, h4, h5⟩ := find_sorted_longest _ _ _ hinv.es_sorted h1
    cases h2 : mux2.es.find? (fun e => strings.HasPrefix path e.pattern) with
    | none =>
      rw [List.find?_eq_none] at h2
      exact absurd h4 (h2 e1 ((hmem e1).1 h3))
    | some e2 =>
      obtain ⟨h6, h7, h8⟩ := find_sorted_longest _ _ _ hinv2.es_sorted h2
      have hl1 := h5 e2 ((hmem e2).2 h6) h7
      have hl2 := h8 e1 ((hmem e1).1 h3) h4
      have hp : e1.pattern = e2.pattern :=
        isPrefixOf_same_length _ _ path h4 h7 (by omega)
      rw [es_unique mux hinv e1 e2 h3 ((hmem e2).2 h6) hp]

theorem match_perm {H : Type} (mux mux2 : http.ServeMux H) (hinv : MuxInv mux)
    (hinv2 : MuxInv mux2) (hm : mux.m.Perm mux2.m) (path : GoString) :
    mux.match_ path = mux2.match_ path := by
  unfold http.ServeMux.match_
  rw [lookup_perm _ _ path hinv.nodup hm, find_es_perm mux mux2 hinv hinv2 hm path]

theorem hosts_perm {H : Type} (mux mux2 : http.ServeMux H) (hinv : MuxInv mux)
    (hinv2 : MuxInv mux2) (hm : mux.m.Perm mux2.m) : mux.hosts = mux2.hosts := by
  rw [hinv.hosts, hinv2.hosts, Bool.eq_iff_iff, List.any_eq_true, List.any_eq_true]
  constructor
  · rintro ⟨x, hx, hp⟩; exact ⟨x, hm.mem_iff.1 hx, hp⟩
  · rintro ⟨x, hx, hp⟩; exact ⟨x, hm.mem_iff.2 hx, hp⟩

/-- Two tables with the same entries dispatch every request alike. -/
theorem Handler_perm {H : Type} (mux mux2 : http.ServeMux H) (hinv : MuxInv mux)
    (hinv2 : MuxInv mux2) (hm : mux.m.Perm mux2.m) (r : http.Request) :
    mux.Handler r = mux2.Handler r := by
  have h1 : ∀ k, mux.m.lookup k = mux2.m.lookup k :=
    fun k => lookup_perm _ _ k hinv.nodup hm
  have h2 : ∀ p, mux.match_ p = mux2.match_ p := match_perm mux mux2 hinv hinv2 hm
  have h3 := hosts_perm mux mux2 hinv hinv2 hm
  simp only [http.ServeMux.Handler, http.ServeMux.redirectToPathSlash,
    http.ServeMux.shouldRedirectRLocked, http.ServeMux.handler, h1, h2, h3]

/-- C6: the table is a function of the configuration and `httpsEnabled`
(`buildRoutes` has no other input), and the order in which the loop visits the
entries does not matter: if it completes on one order of the entries, it completes
on every other order, the two tables hold the same Bindings and the same map
entries, and they dispatch every request alike. -/
theorem route_table_independent_of_order (routes routes2 : RouteConfig) (httpsEnabled : Bool)
    (mux : Mux)
    (hperm : routes.Perm routes2)
    (hbuild : buildRoutes routes httpsEnabled = .ok mux) :
    ∃ mux2, buildRoutes routes2 httpsEnabled = .ok mux2 ∧
      (bindings mux).Perm (bindings mux2) ∧
      mux.m.Perm mux2.m ∧
      (∀ b, b ∈ bindings mux ↔ b ∈ bindings mux2) ∧
      (∀ r, mux.Handler r = mux2.Handler r) ∧
      ∀ verbose r, serve verbose mux r = serve verbose mux2 r := by
  have hfm := hperm.filterMap (boundEntry httpsEnabled)
  obtain ⟨h1, h2, h3⟩ := (buildRoutes_ok_iff httpsEnabled routes).1 ⟨mux, hbuild⟩
  obtain ⟨mux2, hbuild2⟩ := (buildRoutes_ok_iff httpsEnabled routes2).2
    ⟨fun e he => h1 e (hperm.mem_iff.2 he), fun b hb => h2 b (hfm.mem_iff.2 hb),
      ((hfm.map Prod.fst).nodup_iff).1 h3⟩
  have hm : mux.m.Perm mux2.m := by
    rw [buildRoutes_m _ _ _ hbuild, buildRoutes_m _ _ _ hbuild2]
    exact hfm
  have hH := Handler_perm mux mux2 (buildRoutes_inv _ _ _ hbuild)
    (buildRoutes_inv _ _ _ hbuild2) hm
  refine ⟨mux2, hbuild2, hm.map _, hm, fun b => (hm.map _).mem_iff, hH, ?_⟩
  intro verbose r
  simp only [serve, hH]

/-- Witness of C6: the four scenarios visited in the opposite order, HTTPS
enabled. -/
theorem route_table_independent_of_order_witness :
    ∃ mux2, buildRoutes routesABCD.reverse true = .ok mux2 ∧
      (bindings { m := muxA.m ++ muxB.m }).Perm (bindings mux2) ∧
      ({ m := muxA.m ++ muxB.m } : Mux).m.Perm mux2.m ∧
      (∀ b, b ∈ bindings { m := muxA.m ++ muxB.m } ↔ b ∈ bindings mux2) ∧
      (∀ r, ({ m := muxA.m ++ muxB.m } : Mux).Handler r = mux2.Handler r) ∧
      ∀ verbose r, serve verbose { m := muxA.m ++ muxB.m } r = serve verbose mux2 r :=
  route_table_independent_of_order routesABCD routesABCD.reverse true
    { m := muxA.m ++ muxB.m } (List.reverse_perm routesABCD).symm (by decide)


/-- The Bindings of a built table are its map entries: the handler of a Binding is
the proxy to its scheme and host, registered under its pattern. -/
theorem mem_bindings_iff (routes : RouteConfig) (httpsEnabled : Bool) (mux : Mux) (b : Binding)
    (hbuild : buildRoutes routes httpsEnabled = .ok mux) :
    b ∈ bindings mux ↔
      (b.pattern, (⟨Register (NewReverseProxy b.scheme b.host), b.pattern⟩ :
        http.muxEntry HandlerFunc)) ∈ mux.m := by
  constructor
  · intro hb
    obtain ⟨kv, hkv, rfl⟩ := List.mem_map.1 hb
    have hkv2 := hkv
    rw [buildRoutes_m _ _ _ hbuild] at hkv2
    obtain ⟨e, -, hbe⟩ := List.mem_filterMap.1 hkv2
    obtain ⟨s, ho, -, rfl⟩ := boundEntry_eq_some _ _ _ hbe
    exact hkv
  · intro hm
    exact List.mem_map.2 ⟨_, hm, rfl⟩

theorem lookup_host_path (mux : Mux) (hinv : MuxInv mux) (hhosts : mux.hosts = false)
    (host x : GoString) (hhost : host.head? ≠ some (ch '/')) (hx : mux.m.lookup x = none) :
    mux.m.lookup (host ++ x) = none := by
  cases host with
  | nil => simpa using hx
  | cons c t =>
    rw [lookup_eq_none_iff]
    intro hmem
    obtain ⟨kv, hkv, hk⟩ := List.mem_map.1 hmem
    have hany := hinv.hosts
    rw [hhosts] at hany
    have := List.any_eq_false.1 hany.symm kv hkv
    rw [hk] at this
    simp only [List.cons_append, List.head?_cons, ne_eq, decide_not, Bool.not_eq_true,
      Bool.not_eq_eq_eq_not, Bool.not_false, decide_eq_true_eq] at this
    exact hhost (by simpa using this)

/-- C7, counterexample: with `{"/a": "http://upstream1:9000"}` and HTTPS disabled, a
GET to `/a/x` is not dispatched to the handler of `/a`: the pattern `/a` does not
end in `/`, it matches the path `/a` only, and the `ServeMux` answers with its
not-found handler. -/
theorem prefix_without_slash_does_not_match_longer_path :
    (buildRoutes routesA false).map (fun mux => serve false mux getRequest) = .ok .notFound ∧
    (buildRoutes routesA false).map (fun mux => mux.Handler getRequest) =
      .ok (.NotFoundHandler, []) := by
  decide

/-- C7, amended: in a table whose patterns are all plain paths (they begin with
`/` and hold no space, tab, `{` or `%`), a request without a raw path, whose path
is in canonical form or which is a CONNECT, is dispatched to the handler of the
Binding with pattern `p`, and forwarded to its upstream unless its request URI is
`*`, when its path is `p` itself, or when `p` ends in `/`, the path begins with
`p`, the path is not registered itself, the path followed by `/` is not registered
unless the path ends in `/`, no host of the request begins with `/`, and no longer
registered pattern ending in `/` is a beginning of the path. -/
theorem request_dispatched_to_matching_pattern (routes : RouteConfig) (httpsEnabled : Bool)
    (mux : Mux) (b : Binding) (r : http.Request) (verbose : Bool)
    (hbuild : buildRoutes routes httpsEnabled = .ok mux)
    (hb : b ∈ bindings mux)
    (hplain : ∀ b2 ∈ bindings mux, plainPath b2.pattern = true)
    (hraw : r.URL.RawPath = [])
    (hcanon : r.Method = go "CONNECT" ∨ http.cleanPath r.URL.Path = r.URL.Path)
    (hmatch : r.URL.Path = b.pattern ∨
      (b.pattern.getLast? = some (ch '/') ∧
       strings.HasPrefix r.URL.Path b.pattern = true ∧
       (http.stripHostPort r.Host).head? ≠ some (ch '/') ∧
       r.URL.Host.head? ≠ some (ch '/') ∧
       mux.m.lookup r.URL.Path = none ∧
       (r.URL.Path.getLast? = some (ch '/') ∨ mux.m.lookup (r.URL.Path ++ go "/") = none) ∧
       ∀ b2 ∈ bindings mux, b2.pattern.getLast? = some (ch '/') →
         strings.HasPrefix r.URL.Path b2.pattern = true →
         b2.pattern.length ≤ b.pattern.length)) :
    mux.Handler r = (.registered (Register (NewReverseProxy b.scheme b.host)), b.pattern) ∧
    serve verbose mux r =
      (if r.RequestURI = go "*" then .badRequest
       else .forwarded b.pattern ((NewReverseProxy b.scheme b.host).outreq r)) ∧
    ((NewReverseProxy b.scheme b.host).outreq r).URL =
      { r.URL with Scheme := b.scheme, Host := b.host } := by
  have hinv := buildRoutes_inv _ _ _ hbuild
  have hmem := (mem_bindings_iff routes httpsEnabled mux b hbuild).1 hb
  have hhosts : mux.hosts = false := by
    rw [hinv.hosts, List.any_eq_false]
    intro kv hkv
    have := hplain _ (List.mem_map.2 ⟨kv, hkv, rfl⟩)
    simp only [plainPath, Bool.and_eq_true, beq_iff_eq] at this
    simp [this.1]
  have hkey : (mux.shouldRedirectRLocked (http.stripHostPort r.Host) r.URL.Path = false ∧
      mux.shouldRedirectRLocked r.URL.Host r.URL.Path = false) ∧
      mux.match_ r.URL.Path =
        some (Register (NewReverseProxy b.scheme b.host), b.pattern) := by
    rcases hmatch with hp | ⟨hlast, hpre, hhost, hhost2, hnone, hslash, hlongest⟩
    · have hl := lookup_of_mem_nodup _ _ _ hinv.nodup hmem
      rw [← hp] at hl
      refine ⟨⟨?_, ?_⟩, ?_⟩
      · simp [http.ServeMux.shouldRedirectRLocked, hl]
      · simp [http.ServeMux.shouldRedirectRLocked, hl]
      · simp only [http.ServeMux.match_, hl]
        rw [hp]
    · have hne : r.URL.Path.length ≠ 0 := by
        intro h0
        have h1 : r.URL.Path = [] := List.length_eq_zero.1 h0
        rw [h1] at hpre
        have h2 : b.pattern = [] := by
          simpa [strings.HasPrefix, List.isPrefixOf_iff_prefix] using hpre
        rw [h2] at hlast
        simp at hlast
      have hred : ∀ h0 : GoString, h0.head? ≠ some (ch '/') →
          mux.shouldRedirectRLocked h0 r.URL.Path = false := by
        intro h0 hh0
        have hl2 := lookup_host_path mux hinv hhosts _ _ hh0 hnone
        simp only [http.ServeMux.shouldRedirectRLocked, List.any_cons, hnone, hl2,
          Option.isSome_none, List.any_nil, Bool.or_false, Bool.false_eq_true, if_false, hne]
        rcases hslash with hs | hs
        · simp [hs]
        · have hl3 := lookup_host_path mux hinv hhosts _ _ hh0 hs
          simp [hs, hl3]
      have hes : (⟨Register (NewReverseProxy b.scheme b.host), b.pattern⟩ :
          http.muxEntry HandlerFunc) ∈ mux.es := (es_mem_iff mux hinv _).2 ⟨hmem, hlast⟩
      have hfind : mux.es.find? (fun e => strings.HasPrefix r.URL.Path e.pattern) =
          some ⟨Register (NewReverseProxy b.scheme b.host), b.pattern⟩ := by
        cases hf : mux.es.find? (fun e => strings.HasPrefix r.URL.Path e.pattern) with
        | none =>
          rw [List.find?_eq_none] at hf
          exact absurd hpre (hf _ hes)
        | some e2 =>
          obtain ⟨h1, h2, h3⟩ := find_sorted_longest _ _ _ hinv.es_sorted hf
          have h4 := h3 _ hes hpre
          obtain ⟨h5, h6⟩ := (es_mem_iff mux hinv e2).1 h1
          have h7 : (⟨e2.pattern, e2.h.p.target.Scheme, e2.h.p.target.Host⟩ : Binding) ∈
              bindings mux := List.mem_map.2 ⟨_, h5, rfl⟩
          have h8 := hlongest _ h7 h6 h2
          have hp : e2.pattern = b.pattern :=
            isPrefixOf_same_length _ _ r.URL.Path h2 hpre (by simp only at h4 h8; omega)
          rw [es_unique mux hinv e2 _ h1 hes hp]
      exact ⟨⟨hred _ hhost, hred _ hhost2⟩, by simp only [http.ServeMux.match_, hnone, hfind]⟩
  obtain ⟨⟨hred1, hred2⟩, hm⟩ := hkey
  have hhandler : ∀ h0 : GoString, mux.handler h0 r.URL.Path =
      (.registered (Register (NewReverseProxy b.scheme b.host)), b.pattern) := by
    intro h0
    simp only [http.ServeMux.handler, hhosts, hm, Bool.false_eq_true, if_false]
  have hH : mux.Handler r =
      (.registered (Register (NewReverseProxy b.scheme b.host)), b.pattern) := by
    by_cases hc : r.Method = go "CONNECT"
    · simp only [http.ServeMux.Handler, hc, if_true, http.ServeMux.redirectToPathSlash, hred2,
        Bool.not_false, hhandler, Bool.false_eq_true, if_false]
    · have hclean := hcanon.resolve_left hc
      simp only [http.ServeMux.Handler, hc, if_false, hclean, http.ServeMux.redirectToPathSlash,
        hred1, Bool.not_false, if_true, hhandler, Bool.false_eq_true, ne_eq, not_true_eq_false]
  have hpath : strings.HasPrefix r.URL.Path (go "/") = true := by
    have hb1 := hplain b hb
    simp only [plainPath, Bool.and_eq_true, beq_iff_eq] at hb1
    have hroot : ∀ q : GoString, q.head? = some (ch '/') →
        strings.HasPrefix q (go "/") = true := by
      intro q hq
      cases q with
      | nil => cases hq
      | cons c t =>
        simp only [List.head?_cons, Option.some.injEq] at hq
        rw [hq]
        exact (hasPrefix_slash_iff _).2 ⟨t, rfl⟩
    rcases hmatch with hp | ⟨-, hpre, -⟩
    · rw [hp]; exact hroot _ hb1.1
    · cases hbp : b.pattern with
      | nil => rw [hbp] at hb1; cases hb1.1
      | cons c t =>
        rw [hbp] at hb1 hpre
        simp only [List.head?_cons, Option.some.injEq] at hb1
        cases hrp : r.URL.Path with
        | nil => rw [hrp] at hpre; simp [strings.HasPrefix] at hpre
        | cons c2 t2 =>
          rw [hrp] at hpre
          simp only [strings.HasPrefix, List.isPrefixOf, Bool.and_eq_true, beq_iff_eq] at hpre
          rw [← hpre.1, hb1.1]
          exact (hasPrefix_slash_iff _).2 ⟨t2, rfl⟩
  refine ⟨hH, ?_, ?_⟩
  · simp only [serve, hH]
    rfl
  · rw [outreq_eq _ _ r hpath (Or.inl hraw)]
    simp [hraw]

/-- Witness of C7 amended: `GET /a` on the table of `{"/a": ...}` (the path is the
pattern) and `GET /a/x?q=1` on the table of `{"/a/": ...}` (the pattern ends in
`/`): both are forwarded to `upstream1:9000`. -/
theorem request_dispatched_to_matching_pattern_witness :
    (muxA.Handler getA = (.registered (proxyTo "http" "upstream1:9000"), go "/a") ∧
     serve true muxA getA =
       (if getA.RequestURI = go "*" then .badRequest
        else .forwarded (go "/a")
          ((NewReverseProxy (go "http") (go "upstream1:9000")).outreq getA)) ∧
     ((NewReverseProxy (go "http") (go "upstream1:9000")).outreq getA).URL =
       { getA.URL with Scheme := go "http", Host := go "upstream1:9000" }) ∧
    (muxSubtree.Handler getRequest = (.registered (proxyTo "http" "upstream1:9000"), go "/a/") ∧
     serve false muxSubtree getRequest =
       (if getRequest.RequestURI = go "*" then .badRequest
        else .forwarded (go "/a/")
          ((NewReverseProxy (go "http") (go "upstream1:9000")).outreq getRequest)) ∧
     ((NewReverseProxy (go "http") (go "upstream1:9000")).outreq getRequest).URL =
       { getRequest.URL with Scheme := go "http", Host := go "upstream1:9000" }) :=
  ⟨request_dispatched_to_matching_pattern routesA false muxA
      ⟨go "/a", go "http", go "upstream1:9000"⟩ getA true (by decide) (by decide) (by decide)
      (by decide) (Or.inr (by decide)) (Or.inl (by decide)),
   request_dispatched_to_matching_pattern routesSubtree false muxSubtree
      ⟨go "/a/", go "http", go "upstream1:9000"⟩ getRequest false (by decide) (by decide)
      (by decide) (by decide) (Or.inr (by decide))
      (Or.inr ⟨by decide, by decide, by decide, by decide, by decide, Or.inr (by decide),
        by decide⟩)⟩

/-! ## What reaches a handler -/

/-- In a table that only holds plain paths, a request that gets a registered
handler has a path that begins with `/`, CONNECT or not: the pattern it is matched
to is its path or a beginning of its path. -/
theorem registered_path_rooted_of_plain (mux : Mux) (hinv : MuxInv mux) (r : http.Request)
    (h : HandlerFunc) (pattern : GoString)
    (hplain : ∀ b ∈ bindings mux, plainPath b.pattern = true)
    (hreach : mux.Handler r = (.registered h, pattern)) :
    strings.HasPrefix r.URL.Path (go "/") = true := by
  by_cases hm : r.Method = go "CONNECT"
  · have hkeys : ∀ kv ∈ mux.m, kv.1.head? = some (ch '/') := by
      intro kv hkv
      have := hplain _ (List.mem_map.2 ⟨kv, hkv, rfl⟩)
      simp only [plainPath, Bool.and_eq_true, beq_iff_eq] at this
      exact this.1
    have hhosts : mux.hosts = false := by
      rw [hinv.hosts, List.any_eq_false]
      intro kv hkv
      simp [hkeys kv hkv]
    have hroot : ∀ q : GoString, q.head? = some (ch '/') → q.isPrefixOf r.URL.Path = true →
        strings.HasPrefix r.URL.Path (go "/") = true := by
      intro q hq hpre
      cases q with
      | nil => cases hq
      | cons c t =>
        simp only [List.head?_cons, Option.some.injEq] at hq
        cases hrp : r.URL.Path with
        | nil => rw [hrp] at hpre; simp at hpre
        | cons c2 t2 =>
          rw [hrp] at hpre
          simp only [List.isPrefixOf, Bool.and_eq_true, beq_iff_eq] at hpre
          rw [← hpre.1, hq]
          exact (hasPrefix_slash_iff _).2 ⟨t2, rfl⟩
    unfold http.ServeMux.Handler at hreach
    simp only [hm, if_true] at hreach
    split at hreach
    · injection hreach with h1 h2
      cases h1
    · simp only [http.ServeMux.handler, hhosts, Bool.false_eq_true, if_false] at hreach
      cases hmt : mux.match_ r.URL.Path with
      | none =>
        simp only [hmt] at hreach
        injection hreach with h1 h2
        cases h1
      | some hp =>
        unfold http.ServeMux.match_ at hmt
        cases hl : mux.m.lookup r.URL.Path with
        | some v =>
          have := hkeys _ (mem_of_lookup _ _ _ hl)
          exact hroot _ this (by simp)
        | none =>
          simp only [hl] at hmt
          cases hf : mux.es.find? (fun e => strings.HasPrefix r.URL.Path e.pattern) with
          | none => simp [hf] at hmt
          | some e =>
            have he := List.mem_of_find?_eq_some hf
            have hpe := List.find?_some hf
            have hk := hkeys _ ((es_mem_iff mux hinv e).1 he).1
            exact hroot _ hk hpe
  · exact registered_path_rooted mux r h pattern hreach hm

/-- C8: in a table the route loop builds, a request the `ServeMux` hands to the
handler of a Binding `(scheme, host)` is passed to the proxy as it is, in verbose
and in non-verbose mode, and the request the proxy forwards is the original one
with the scheme and the host of the Binding in its URL: the path, the escaped path
sent upstream and the query string are those of the original request, nothing is
stripped or prepended, and method, headers and body are untouched.  The request is
any request but a CONNECT whose path does not begin with `/` in a table that
holds a key that is not a plain path; its raw path, when the server has set one,
begins with `/` like the request target it is read from. -/
theorem request_reaching_handler_is_forwarded_unchanged (routes : RouteConfig)
    (httpsEnabled verbose : Bool) (mux : Mux) (scheme host pattern : GoString)
    (r : http.Request)
    (hbuild : buildRoutes routes httpsEnabled = .ok mux)
    (hreach : mux.Handler r = (.registered (Register (NewReverseProxy scheme host)), pattern))
    (hconnect : r.Method = go "CONNECT" →
      strings.HasPrefix r.URL.Path (go "/") = true ∨
      ∀ b ∈ bindings mux, plainPath b.pattern = true)
    (hraw : r.URL.RawPath = [] ∨ strings.HasPrefix r.URL.RawPath (go "/") = true) :
    serve verbose mux r =
      (if r.RequestURI = go "*" then .badRequest
       else .forwarded pattern ((NewReverseProxy scheme host).outreq r)) ∧
    (Register (NewReverseProxy scheme host)).ServeHTTP verbose r =
      { logged := if verbose then some (r.RemoteAddr, r.RequestURI) else none
        proxy := NewReverseProxy scheme host
        request := r } ∧
    (NewReverseProxy scheme host).outreq r =
      { r with URL := { r.URL with
          Scheme := scheme
          Host := host
          RawPath := if r.URL.RawPath = [] then [] else url.EscapedPath r.URL } } ∧
    ((NewReverseProxy scheme host).outreq r).URL.Scheme = scheme ∧
    ((NewReverseProxy scheme host).outreq r).URL.Host = host ∧
    ((NewReverseProxy scheme host).outreq r).URL.Path = r.URL.Path ∧
    url.EscapedPath ((NewReverseProxy scheme host).outreq r).URL = url.EscapedPath r.URL ∧
    ((NewReverseProxy scheme host).outreq r).URL.RawQuery = r.URL.RawQuery ∧
    ((NewReverseProxy scheme host).outreq r).Method = r.Method ∧
    ((NewReverseProxy scheme host).outreq r).Header = r.Header ∧
    ((NewReverseProxy scheme host).outreq r).Body = r.Body := by
  have hpath : strings.HasPrefix r.URL.Path (go "/") = true := by
    by_cases hm : r.Method = go "CONNECT"
    · rcases hconnect hm with h1 | h1
      · exact h1
      · exact registered_path_rooted_of_plain mux (buildRoutes_inv _ _ _ hbuild) r _ _ h1 hreach
    · exact registered_path_rooted mux r _ _ hreach hm
  have heq := outreq_eq scheme host r hpath hraw
  refine ⟨?_, rfl, heq, ?_, ?_, ?_, ?_, ?_, ?_, ?_, ?_⟩
  · simp only [serve, hreach]
    rfl
  · rw [heq]
  · rw [heq]
  · rw [heq]
  · apply escapedPath_idem
    · rw [heq]
    · rw [heq]
      by_cases h0 : r.URL.RawPath = []
      · exact Or.inl ⟨by simp [h0], h0⟩
      · exact Or.inr (by simp [h0])
  · rw [heq]
  · rw [heq]
  · rw [heq]
  · rw [heq]

/-- Witness of C8: `GET /a/x?q=1` on the table of `{"/a/": "http://upstream1:9000"}`,
verbose: the request reaches the handler of `/a/` and is forwarded to
`http://upstream1:9000` with its path and query. -/
theorem request_reaching_handler_is_forwarded_unchanged_witness :
    serve true muxSubtree getRequest =
      (if getRequest.RequestURI = go "*" then .badRequest
       else .forwarded (go "/a/")
        ((NewReverseProxy (go "http") (go "upstream1:9000")).outreq getRequest)) ∧
    (Register (NewReverseProxy (go "http") (go "upstream1:9000"))).ServeHTTP true getRequest =
      { logged := if true then some (getRequest.RemoteAddr, getRequest.RequestURI) else none
        proxy := NewReverseProxy (go "http") (go "upstream1:9000")
        request := getRequest } ∧
    (NewReverseProxy (go "http") (go "upstream1:9000")).outreq getRequest =
      { getRequest with URL := { getRequest.URL with
          Scheme := go "http"
          Host := go "upstream1:9000"
          RawPath := if getRequest.URL.RawPath = [] then [] else
            url.EscapedPath getRequest.URL } } ∧
    ((NewReverseProxy (go "http") (go "upstream1:9000")).outreq getRequest).URL.Scheme =
      go "http" ∧
    ((NewReverseProxy (go "http") (go "upstream1:9000")).outreq getRequest).URL.Host =
      go "upstream1:9000" ∧
    ((NewReverseProxy (go "http") (go "upstream1:9000")).outreq getRequest).URL.Path =
      getRequest.URL.Path ∧
    url.EscapedPath ((NewReverseProxy (go "http") (go "upstream1:9000")).outreq getRequest).URL =
      url.EscapedPath getRequest.URL ∧
    ((NewReverseProxy (go "http") (go "upstream1:9000")).outreq getRequest).URL.RawQuery =
      getRequest.URL.RawQuery ∧
    ((NewReverseProxy (go "http") (go "upstream1:9000")).outreq getRequest).Method =
      getRequest.Method ∧
    ((NewReverseProxy (go "http") (go "upstream1:9000")).outreq getRequest).Header =
      getRequest.Header ∧
    ((NewReverseProxy (go "http") (go "upstream1:9000")).outreq getRequest).Body =
      getRequest.Body :=
  request_reaching_handler_is_forwarded_unchanged routesSubtree false true muxSubtree
    (go "http") (go "upstream1:9000") (go "/a/") getRequest (by decide) (by decide)
    (by decide) (Or.inl (by decide))

/-! ## The fuel of `path.Clean` -/

/-- The loop of `path.Clean` does not depend on its fuel once the fuel covers the
remaining input: with `len(path)` it never runs out. -/
theorem cleanLoop_fuel (rooted : Bool) :
    ∀ (fuel : Nat) (rest out : GoString) (dotdot : Nat), rest.length ≤ fuel →
      path.cleanLoop rooted (fuel + 1) rest out dotdot =
        path.cleanLoop rooted fuel rest out dotdot := by
  intro fuel
  induction fuel with
  | zero =>
    intro rest out dotdot hlen
    have : rest = [] := List.length_eq_zero.1 (by omega)
    subst this
    simp [path.cleanLoop]
  | succ n ih =>
    intro rest out dotdot hlen
    cases rest with
    | nil => simp [path.cleanLoop]
    | cons c rest1 =>
      have h1 : rest1.length ≤ n := by simpa using hlen
      have h2 : (rest1.drop 1).length ≤ n := by simp only [List.length_drop]; omega
      rw [path.cleanLoop]
      conv_rhs => rw [path.cleanLoop]
      by_cases hc : c = ch '/'
      · simp only [hc, if_true]
        exact ih _ _ _ h1
      · have h3 : ((c :: rest1).dropWhile fun b => b != ch '/').length ≤ n := by
          have hp : (c != ch '/') = true := by simpa using hc
          rw [List.dropWhile_cons, hp, if_pos rfl]
          exact Nat.le_trans (List.dropWhile_suffix _).length_le h1
        simp only [hc, if_false]
        split_ifs <;> first | exact ih _ _ _ h1 | exact ih _ _ _ h2 | exact ih _ _ _ h3

end RProxy
